import Mathlib

set_option maxHeartbeats 1000000

/-! Shallow embedding of the tender-extraction backend's core services
    (gap filler, chunk planner, rate limiter, classifier, schema coercion)
    together with proofs of the specification's testable properties. -/

/-- A Python/JSON value as produced by `json.loads` and passed between the
services: `None`, booleans, integers, strings, lists and string-keyed dicts
(dicts are modelled as association lists in insertion order). -/
inductive PyVal where
  | null : PyVal
  | bool (b : Bool) : PyVal
  | int (n : Int) : PyVal
  | str (s : String) : PyVal
  | list (items : List PyVal) : PyVal
  | dict (entries : List (String × PyVal)) : PyVal

/-- Python `str.lower()`: per-character case folding (the placeholder tokens
and indicator phrases compared this way are ASCII, where this agrees with
Python). -/
def pyLower (s : String) : String := ⟨s.data.map Char.toLower⟩

/-- Python `str.strip()`: remove leading and trailing whitespace. -/
def pyStrip (s : String) : String :=
  ⟨((s.data.dropWhile Char.isWhitespace).reverse.dropWhile
      Char.isWhitespace).reverse⟩

/-- The `d[k]` for an insertion-ordered dict: the value at the first entry whose
key equals `k` (Python dicts have unique keys, so first = only). -/
def dictGet (d : List (String × PyVal)) (k : String) : Option PyVal :=
  match d with
  | [] => none
  | (k', v) :: rest => if k' = k then some v else dictGet rest k

/-- The `d[k] = v` for an insertion-ordered dict: replaces the value at an
existing key in place, otherwise appends the new entry at the end, exactly
as Python dict assignment behaves. -/
def dictSet (d : List (String × PyVal)) (k : String) (v : PyVal) :
    List (String × PyVal) :=
  match d with
  | [] => [(k, v)]
  | (k', v') :: rest =>
    if k' = k then (k, v) :: rest else (k', v') :: dictSet rest k v

namespace GapFiller

/-- The `EMPTY_INDICATORS` of `gap_filler.py`: the list
`["", "not mentioned", "n/a", "not specified", "not available", "tbd", None]`. -/
def EMPTY_INDICATOR_STRINGS : List String :=
  ["", "not mentioned", "n/a", "not specified", "not available", "tbd"]

/-- Python membership `value in EMPTY_INDICATORS`: `==`-equality against each
element, so it holds exactly for `None` and for strings *exactly* equal to one
of the placeholder tokens (no trimming, no case folding; no non-string,
non-`None` value compares equal to any element). -/
def inEmptyIndicators (v : PyVal) : Bool :=
  match v with
  | .null => true
  | .str s => EMPTY_INDICATOR_STRINGS.contains s
  | _ => false

/-- The `_deep_merge(base, updates)` of `gap_filler.py`: iterates over the entries
of `updates`; when both sides hold a dict at the key it recurses, otherwise it
overwrites only when `value not in EMPTY_INDICATORS`. -/
def deepMerge : List (String × PyVal) → List (String × PyVal) →
    List (String × PyVal)
  | base, [] => base
  | base, (k, PyVal.dict u) :: rest =>
    match dictGet base k with
    | some (PyVal.dict b) =>
      deepMerge (dictSet base k (PyVal.dict (deepMerge b u))) rest
    | _ =>
      deepMerge
        (if inEmptyIndicators (PyVal.dict u) then base
         else dictSet base k (PyVal.dict u)) rest
  | base, (k, v) :: rest =>
    deepMerge (if inEmptyIndicators v then base else dictSet base k v) rest
termination_by _ updates => sizeOf updates
decreasing_by all_goals (simp_wf; try omega)

/-- Python truthiness test `not item` (negated): `None`, `False`, `0`, `""`,
`[]` and `{}` are falsy, everything else truthy. -/
def pyFalsy : PyVal → Bool
  | .null => true
  | .bool b => !b
  | .int n => n == 0
  | .str s => s.isEmpty
  | .list l => l.isEmpty
  | .dict d => d.isEmpty

/-- The `CRITICAL_FIELDS` of `gap_filler.py`: section name → fields considered
mandatory for gap analysis. -/
def CRITICAL_FIELDS : List (String × List String) :=
  [("key_dates",
    ["bid_end", "bid_start", "publication_date", "bid_validity",
     "pre_bid_meeting_date", "pre_bid_meeting_location",
     "technical_bid_opening", "financial_bid_opening",
     "contract_start", "project_duration",
     "date_and_time_of_issue", "due_date_and_time_of_submission"]),
   ("financial_requirements",
    ["emd", "tender_fee", "performance_security",
     "payment_terms", "retention_money", "epbg_details"]),
   ("tender_meta",
    ["tender_title", "portal", "department",
     "issuing_authority", "tender_id", "country", "state",
     "organization_address", "tender_document_date",
     "submission_instructions", "boq_title", "type_of_bid",
     "item_category", "total_quantity"]),
   ("eligibility_snapshot",
    ["turnover_requirement", "experience_required",
     "who_can_bid", "consortium_or_jv_allowed",
     "international_bidders_allowed",
     "bidder_technical_infrastructure",
     "oem_turnover_requirement", "mse_relaxation", "startup_relaxation",
     "detailed_pre_qualification_criteria"]),
   ("scope_of_work",
    ["description", "deliverables", "location",
     "duration", "technical_specifications"]),
   ("legal_and_risk_clauses",
    ["rejection_of_bid", "splitting_of_work", "liquidated_damages",
     "blacklisting_clause", "warranty_period"]),
   ("additional_important_information",
    ["detailed_evaluation_scoring_criteria",
     "evaluation_method", "bid_to_ra_enabled",
     "technical_clarification_time", "buyer_added_atc"]),
   ("documents_required",
    ["documents_required", "online_submission_documents",
     "offline_submission_documents"]),
   ("root",
    ["executive_summary", "pre_qualification_requirement"])]

/-- The `_is_critical_field(section, field)` of `gap_filler.py`. -/
def isCriticalField (sectionName field : String) : Bool :=
  match CRITICAL_FIELDS.find? (fun p => p.1 == sectionName) with
  | some (_, fields) => fields.contains field
  | none => false

/-- One element of the list returned by `find_missing_fields`:
`{"section": ..., "field": ..., "path": ..., "is_critical": ...}`. -/
structure MissingField where
  sectionName : String
  field : String
  path : String
  isCritical : Bool

/-- The `current_path = f"{path}.{key}" if path else key`. -/
def childPath (path key : String) : String :=
  if path = "" then key else path ++ "." ++ key

/-- The `find_missing_fields(data, parent_key, path)` of `gap_filler.py`:
recursively walks the dict; records list fields that are empty or all-falsy
and scalar fields that are `None` or whose lowered/stripped text is a
placeholder token.  Booleans and numbers are never recorded. -/
def findMissingFields : List (String × PyVal) → String → String →
    List MissingField
  | [], _, _ => []
  | (key, PyVal.dict d) :: rest, parentKey, path =>
    findMissingFields d key (childPath path key) ++
      findMissingFields rest parentKey path
  | (key, PyVal.list items) :: rest, parentKey, path =>
    (if items.isEmpty || items.all pyFalsy then
      [⟨if parentKey = "" then "root" else parentKey, key, childPath path key,
        isCriticalField parentKey key⟩]
     else []) ++ findMissingFields rest parentKey path
  | (key, PyVal.null) :: rest, parentKey, path =>
    ⟨if parentKey = "" then "root" else parentKey, key, childPath path key,
      isCriticalField parentKey key⟩ :: findMissingFields rest parentKey path
  | (key, PyVal.str s) :: rest, parentKey, path =>
    (if EMPTY_INDICATOR_STRINGS.contains (pyStrip (pyLower s)) then
      [⟨if parentKey = "" then "root" else parentKey, key, childPath path key,
        isCriticalField parentKey key⟩]
     else []) ++ findMissingFields rest parentKey path
  | (_, _) :: rest, parentKey, path => findMissingFields rest parentKey path
termination_by data _ _ => sizeOf data
decreasing_by all_goals (simp_wf; try omega)

/-- The `fill_missing_fields(draft_json, documents)` of `gap_filler.py`.  The one
targeted extraction call (`_execute_gap_extraction`, i.e.
`call_groq_with_retry` + `validate_json_response`) is abstracted as the
`extraction` argument: `.error e` models the call raising after its retries
are exhausted or `validate_json_response` raising on unparseable JSON; `.ok`
models the parsed JSON value it returns.  The body's `try/except Exception`
catches any such failure, logs it, and returns `draft_json` unchanged; a
non-dict parsed value makes `_deep_merge` raise, which the same handler
catches. -/
def fillMissingFields (draftJson : List (String × PyVal))
    (extraction : Except String PyVal) : List (String × PyVal) :=
  let missing := findMissingFields draftJson "" ""
  let critical := missing.filter (·.isCritical)
  if critical.isEmpty then draftJson
  else
    match extraction with
    | .ok (PyVal.dict filledData) => deepMerge draftJson filledData
    | .ok _ => draftJson
    | .error _ => draftJson

/-- Modelled from the spec: the SPEC's placeholder-emptiness predicate for a
leaf — `None`, an empty collection, or a string equal case-insensitively
after trimming to one of the placeholder tokens.  Written from the spec's
words, to be compared with the code's exact-match `inEmptyIndicators`. -/
def specEmptyLeaf : PyVal → Bool
  | .null => true
  | .str s => EMPTY_INDICATOR_STRINGS.contains (pyStrip (pyLower s))
  | .list l => l.isEmpty
  | .dict d => d.isEmpty
  | _ => false

end GapFiller

/-- Follows a dot-path (given as a list of keys) into a nested value. -/
def getPath : PyVal → List String → Option PyVal
  | v, [] => some v
  | .dict d, k :: rest =>
    (match dictGet d k with
     | some v => getPath v rest
     | none => none)
  | _, _ :: _ => none

/-- The keys of a dict level are pairwise distinct (always true of a dict
that came from Python, whose dicts cannot hold duplicate keys). -/
def keysNodup : List (String × PyVal) → Bool
  | [] => true
  | (k, _) :: rest => !(rest.any (fun p => p.1 == k)) && keysNodup rest

/-- Key uniqueness along one path of a nested dict value. -/
def nodupAlong : List (String × PyVal) → List String → Bool
  | _, [] => true
  | d, k :: rest =>
    keysNodup d &&
      (match dictGet d k with
       | some (PyVal.dict u) => nodupAlong u rest
       | _ => true)

namespace BatchProcessor

/-- The line-boundary characters of Python `str.splitlines`. -/
def isLineBreak (c : Char) : Bool :=
  c ∈ ['\n', '\r', '\x0b', '\x0c', '\x1c', '\x1d', '\x1e', '\x85',
       '\u2028', '\u2029']

/-- Python `str.splitlines()` over the character list of a string: splits at
every line-boundary character, treating `"\r\n"` as a single boundary; a
trailing boundary does not open a new empty line. -/
def pySplitLines : List Char → List (List Char)
  | [] => []
  | c :: rest =>
    if isLineBreak c then
      [] :: pySplitLines
        (if c == '\r' && rest.head? == some '\n' then rest.tail else rest)
    else
      match pySplitLines rest with
      | [] => [[c]]
      | l :: ls => (c :: l) :: ls
termination_by s => s.length
decreasing_by
  · simp only [List.length_cons]
    split
    · cases rest <;> simp <;> omega
    · omega
  · simp

/-- The accumulation loop of `chunk_text` in `batch_processor.py`, kept at
the level of line groups: `current` is the list of lines of the chunk being
built and `currentLen` the running `current_len` counter (each line counted
as `len(line) + 1`). A new chunk starts when adding the next line would
push the counter past `maxChars` and the current chunk is non-empty. -/
def chunkTextAux (maxChars : Nat) :
    List (List Char) → List (List Char) → Nat → List (List (List Char))
  | [], current, _ => if current.isEmpty then [] else [current]
  | line :: rest, current, currentLen =>
    if currentLen + line.length > maxChars && !current.isEmpty then
      current :: chunkTextAux maxChars rest [line] (line.length + 1)
    else
      chunkTextAux maxChars rest (current ++ [line])
        (currentLen + line.length + 1)

/-- The `chunk_text(text, max_chars)` of `batch_processor.py` (default
`max_chars = 8000`): the accumulated line groups, each joined back with
`"\n"`. -/
def chunk_text (text : String) (maxChars : Nat) : List String :=
  (chunkTextAux maxChars (pySplitLines text.data) [] 0).map
    (fun g => ⟨List.intercalate ['\n'] g⟩)

end BatchProcessor

namespace GroqClient

/-- The `TPM_LIMIT` of `groq_client.py`. -/
def TPM_LIMIT : ℚ := 1000000

/-- The `RPM_LIMIT` of `groq_client.py`. -/
def RPM_LIMIT : ℚ := 3000

/-- The state of one `TokenBucket` of `groq_client.py`: `capacity` and
`refill_rate` are fixed at construction; `tokens` and `last_refill` evolve.
Real-valued time and float arithmetic are modelled over `ℚ`. -/
structure TokenBucket where
  capacity : ℚ
  refillRate : ℚ
  tokens : ℚ
  lastRefill : ℚ

/-- The `TokenBucket.__init__(capacity, refill_rate)` called at time `t0`:
starts full. -/
def TokenBucket.init (capacity refillRate t0 : ℚ) : TokenBucket :=
  ⟨capacity, refillRate, capacity, t0⟩

/-- The `TokenBucket.consume(amount)` evaluated at wall-clock time `now`
(`time.time()`), exactly as the mutex-protected body runs: first refill
`tokens` to `min(capacity, tokens + (now - last_refill) * refill_rate)` and
set `last_refill = now`; then succeed — debiting `min(amount, capacity)` —
iff the refilled level is at least `min(amount, capacity)`. -/
def TokenBucket.consume (b : TokenBucket) (amount now : ℚ) :
    Bool × TokenBucket :=
  let refilled := min b.capacity (b.tokens + (now - b.lastRefill) * b.refillRate)
  if min amount b.capacity ≤ refilled then
    (true, { b with tokens := refilled - min amount b.capacity,
                    lastRefill := now })
  else
    (false, { b with tokens := refilled, lastRefill := now })

/-- A sequence of `consume` calls on one bucket, each given as
`(now, amount)`; returns the final bucket state and the total capacity
actually debited by the granted calls. -/
def runConsume : TokenBucket → List (ℚ × ℚ) → TokenBucket × ℚ
  | b, [] => (b, 0)
  | b, (now, amount) :: ops =>
    let step := b.consume amount now
    let rest := runConsume step.2 ops
    (rest.1, (if step.1 then min amount b.capacity else 0) + rest.2)

/-- Well-formed call sequence: wall-clock times never run backwards and
requested amounts are non-negative. -/
def opsWellFormed (t0 : ℚ) : List (ℚ × ℚ) → Prop
  | [] => True
  | (now, amount) :: ops => t0 ≤ now ∧ 0 ≤ amount ∧ opsWellFormed now ops

end GroqClient


namespace GroqClient

/-- The `estimate_tokens(text)` of `groq_client.py`: `len(text) // 4`. -/
def estimate_tokens (text : String) : Nat := text.length / 4

end GroqClient

namespace Summarizer

/-- The `SINGLE_PASS_TOKEN_LIMIT` of `summarizer.py`. -/
def SINGLE_PASS_TOKEN_LIMIT : Nat := 40000

/-- The two processing strategies of `process_tender_multi_file`. -/
inductive Strategy where
  | singlePass : Strategy
  | hierarchical : Strategy
deriving DecidableEq

/-- The strategy-selection branch of `process_tender_multi_file`
(`summarizer.py`): single pass iff the estimated token count of the
combined text is at most `SINGLE_PASS_TOKEN_LIMIT`. -/
def selectStrategy (combinedText : String) : Strategy :=
  if GroqClient.estimate_tokens combinedText ≤ SINGLE_PASS_TOKEN_LIMIT then
    Strategy.singlePass
  else
    Strategy.hierarchical

/-- The dispatch performed by `process_tender_multi_file` after strategy
selection, with the two pipelines (`_run_single_pass` and
`process_large_document` + re-validation) abstracted as functions of the
combined text. -/
def processTenderDispatch (combinedText : String)
    (singlePass hierarchical : String → PyVal) : PyVal :=
  if GroqClient.estimate_tokens combinedText ≤ SINGLE_PASS_TOKEN_LIMIT then
    singlePass combinedText
  else
    hierarchical combinedText

/-- The `stop_words` set of `clean_empty_fields` in `summarizer.py`. -/
def stop_words : List String :=
  ["not found", "not mentioned", "not specified", "n/a", "", "null", "none"]

/-- Python membership `i in (None, "", [], \x7b\x7d)` used to filter cleaned
list items: equality against exactly those four values. -/
def inDropTuple : PyVal → Bool
  | .null => true
  | .str s => s.isEmpty
  | .list l => l.isEmpty
  | .dict d => d.isEmpty
  | _ => false

/-- The drop condition applied to a cleaned dict value in
`clean_empty_fields`: a stop-word string (lowered and stripped), `None`,
or an empty list/dict. -/
def isDroppedValue : PyVal → Bool
  | .null => true
  | .str s => stop_words.contains (pyStrip (pyLower s))
  | .list l => l.isEmpty
  | .dict d => d.isEmpty
  | _ => false

mutual

/-- The `clean_empty_fields(data)` of `summarizer.py`: recursively drops dict
entries whose cleaned value is a stop-word string, `None`, or an empty
collection — except entries keyed `"_metadata"`, which pass through
unchanged — and drops list items equal to `None`, `""`, `[]` or `\x7b\x7d`;
scalars are returned as is. -/
def clean_empty_fields : PyVal → PyVal
  | PyVal.dict entries => PyVal.dict (cleanDictEntries entries)
  | PyVal.list items => PyVal.list (cleanListItems items)
  | v => v

/-- The dict branch of `clean_empty_fields`. -/
def cleanDictEntries : List (String × PyVal) → List (String × PyVal)
  | [] => []
  | (k, v) :: rest =>
    if k = "_metadata" then (k, v) :: cleanDictEntries rest
    else
      (if isDroppedValue (clean_empty_fields v) then []
       else [(k, clean_empty_fields v)]) ++ cleanDictEntries rest

/-- The list branch of `clean_empty_fields`. -/
def cleanListItems : List PyVal → List PyVal
  | [] => []
  | i :: rest =>
    (if inDropTuple (clean_empty_fields i) then []
     else [clean_empty_fields i]) ++ cleanListItems rest

end

mutual

/-- The shape of a fully cleaned value: no dict entry outside `_metadata`
holds a dropped value (recursively), and no list item is `None`, `""`,
`[]` or `\x7b\x7d` (recursively). -/
def cleanResultOK : PyVal → Bool
  | PyVal.dict entries => cleanEntriesOK entries
  | PyVal.list items => cleanItemsOK items
  | _ => true

def cleanEntriesOK : List (String × PyVal) → Bool
  | [] => true
  | (k, v) :: rest =>
    (if k = "_metadata" then true
     else !(isDroppedValue v) && cleanResultOK v) && cleanEntriesOK rest

def cleanItemsOK : List PyVal → Bool
  | [] => true
  | i :: rest => (!(inDropTuple i) && cleanResultOK i) && cleanItemsOK rest

end

end Summarizer

namespace RuleParser

/-- The `gem_indicators` table of `detect_portal` in `rule_parser.py`. -/
def gem_indicators : List (String × Nat) :=
  [("Government e-Marketplace", 2),
   ("GeM Portal", 2),
   ("gem.gov.in", 3),
   ("GEM/202", 3),
   ("बिडर का न्यूनतम", 2),
   ("मूल उपकरण निर्माता", 2),
   ("Buyer Added Terms", 2),
   ("ePBG", 2),
   ("Pre-Qualification Requirement", 1),
   ("Document required from seller", 2),
   ("Item Category", 1),
   ("Total Quantity", 1)]

/-- The `cppp_indicators` table of `detect_portal` in `rule_parser.py`. -/
def cppp_indicators : List (String × Nat) :=
  [("Central Public Procurement Portal", 3),
   ("CPPP", 3),
   ("eprocure.gov.in", 3),
   ("Envelope-1", 2),
   ("Envelope-2", 2),
   ("Date & time of issue", 2),
   ("Due Date & time of Submission", 2),
   ("Online Submission", 1),
   ("Offline Submission", 1),
   ("NIT No", 2),
   ("Technical Proposal", 1)]

/-- Python substring membership `needle in hay`. -/
def occursIn (needle : List Char) : List Char → Bool
  | [] => needle.isEmpty
  | c :: rest => needle.isPrefixOf (c :: rest) || occursIn needle rest

/-- The score loop of `detect_portal`: add each indicator\'s weight when its
lowercased phrase occurs in the lowercased text. -/
def portalScore (indicators : List (String × Nat)) (textLower : List Char) :
    Nat :=
  indicators.foldl
    (fun acc p => if occursIn (pyLower p.1).data textLower then acc + p.2
                  else acc) 0

/-- The `detect_portal(text)` of `rule_parser.py`: weighted case-insensitive
substring scores per label; returns the strictly higher score\'s label when
that score is at least 2, otherwise `"Generic"`. -/
def detect_portal (text : String) : String :=
  let textLower := (pyLower text).data
  let gemScore := portalScore gem_indicators textLower
  let cpppScore := portalScore cppp_indicators textLower
  if gemScore > cpppScore ∧ gemScore ≥ 2 then "GeM"
  else if cpppScore > gemScore ∧ cpppScore ≥ 2 then "CPPP"
  else "Generic"

end RuleParser

namespace BatchProcessor

/-- The text of `MICRO_SUMMARY_PROMPT` before its `CHUNK` placeholder. -/
def MICRO_SUMMARY_PROMPT_PREFIX : String :=
  "You are a tender extraction specialist. Extract ALL important information from this section.\n\n**CRITICAL FIELDS TO FIND:**\n- IDs, Titles, Dates (Start, End, Opening), Validity\n- Fees (EMD, Tender Fee), Security, Payments\n- Eligibility (MSE, Startup, Turnover, Experience, Credentials)\n- Scope, Location, Duration\n- **Organization Address**, Tel, Fax, Email\n- **Rejection of Bid** & **Disqualification Criteria**\n- **Offline Submissions** (Hardcopy) & **Online Submissions** (Scanned)\n- **Minimum Requirements at Bidder's End** (Infrastructure)\n- **6.2 Pre-Qualification/Eligibility Criteria** & **6.3 Evaluation/ Scoring criteria**\n- **Executive Summary** (Project overview)\n- **Submission Instructions** (Offline address, labels)\n\n**INSTRUCTION:**\n- If you find a table (e.g., Eligibility Table, Scoring Table, Document List), **DO NOT SUMMARIZE IT**. Instead, extract the **RAW DATA** from that table exactly as it appears.\n- Capture all numbered sections (e.g., \"1.1 Offline Submissions\", \"3.6 Minimum Requirements\", \"6.2 Eligibility\", \"6.3 Scoring\").\n- Vendors need the EXACT criteria to make a decision.\n\n**GeM PORTAL PRE-QUALIFICATION REQUIREMENT (if applicable):**\n- Minimum Average Annual Turnover (For 3 Years) - look for \"बिडर का न्यूनतम औसत वार्षिक टर्नओवर\" - extract EXACT value like \"45 Lakh (s)\"\n- OEM Average Turnover (Last 3 Years) - look for \"मूल उपकरण निर्माता का औसत टर्नओवर\" - extract EXACT value\n- Years of Past Experience Required - look for \"समान सेवा के लिए अपेक्षित विगत अनुभव के वर्ष\" - extract EXACT value like \"3 Year (s)\"\n- MSE Exemption - look for \"एमएसएमई को छूट\", values: \"Yes\" or \"No\"\n- Startup Exemption - look for \"स्टार्टअप के लिए छूट\", values: \"Yes\" or \"No\"\n- Document required from seller - look for \"विक्रेता से मांगे गए दस्तावेज़\" - COPY ENTIRE TEXT EXACTLY\n\n**INSTRUCTIONS:**\n- Extract EXACT values/dates as they appear.\n- Include TIME if available with dates.\n- Use bullet points: Field Name: Value\n\n**Section:**\n<<<\n"

/-- The text of `MICRO_SUMMARY_PROMPT` after its `CHUNK` placeholder. -/
def MICRO_SUMMARY_PROMPT_SUFFIX : String :=
  "\n>>>\n\nOutput only bullet points:"


/-- The `MICRO_SUMMARY_PROMPT.format(CHUNK=chunk)`: the template has exactly one
replacement field. -/
def microPrompt (chunk : String) : String :=
  MICRO_SUMMARY_PROMPT_PREFIX ++ chunk ++ MICRO_SUMMARY_PROMPT_SUFFIX

/-- The per-chunk task body of `process_micro_batches`: run the extraction
call on the formatted prompt; a raised exception (modelled as `.error e`)
is caught and replaced by the error marker string `"[Error: " + str(e) + "]"`. -/
def settleChunk (groqFunc : String → Except String String) (chunk : String) :
    String :=
  match groqFunc (microPrompt chunk) with
  | .ok r => r
  | .error e => "[Error: " ++ e ++ "]"

/-- The `process_micro_batches(chunks, groq_func, max_concurrent)` of
`batch_processor.py`: `asyncio.gather` returns one settled result per
chunk, in input order.  Each task\'s outcome is modelled by
`groqFunc : String → Except String String` (`.error` = the call raising);
the semaphore only bounds how many tasks run at once and does not affect
the results. -/
def process_micro_batches (chunks : List String)
    (groqFunc : String → Except String String) : List String :=
  chunks.map (settleChunk groqFunc)

/-- An explicit completion schedule for the gathered tasks: the tasks
finish in the order given by `order` (a permutation of the chunk indices),
and each finished task stores its settled result into its own slot, as
`asyncio.gather` does.  Slots of tasks that never complete stay `none`. -/
def gatherScheduled (chunks : List String)
    (groqFunc : String → Except String String) (order : List Nat) :
    List (Option String) :=
  order.foldl
    (fun acc i =>
      match chunks[i]? with
      | some c => acc.set i (some (settleChunk groqFunc c))
      | none => acc)
    (List.replicate chunks.length none)

end BatchProcessor

namespace Schema

/-- JSON string escaping as in `json.dumps` (common escapes; rare control
characters are left as is in this model). -/
def jsonEscape (s : String) : String :=
  ⟨s.data.foldr
    (fun c acc =>
      if c = '"' then '\\' :: '"' :: acc
      else if c = '\\' then '\\' :: '\\' :: acc
      else if c = '\n' then '\\' :: 'n' :: acc
      else if c = '\t' then '\\' :: 't' :: acc
      else if c = '\r' then '\\' :: 'r' :: acc
      else c :: acc) []⟩

mutual

/-- The `json.dumps(v)` with Python default separators. -/
def jsonDumps : PyVal → String
  | .null => "null"
  | .bool true => "true"
  | .bool false => "false"
  | .int n => toString n
  | .str s => "\"" ++ jsonEscape s ++ "\""
  | .list items => "[" ++ String.intercalate ", " (jsonDumpsList items) ++ "]"
  | .dict entries =>
    "\x7b" ++ String.intercalate ", " (jsonDumpsEntries entries) ++ "\x7d"

def jsonDumpsList : List PyVal → List String
  | [] => []
  | v :: rest => jsonDumps v :: jsonDumpsList rest

def jsonDumpsEntries : List (String × PyVal) → List String
  | [] => []
  | (k, v) :: rest =>
    ("\"" ++ jsonEscape k ++ "\": " ++ jsonDumps v) :: jsonDumpsEntries rest

end

mutual

/-- Python `repr(v)` for JSON-shaped values (string quoting simplified). -/
def pyRepr : PyVal → String
  | .null => "None"
  | .bool true => "True"
  | .bool false => "False"
  | .int n => toString n
  | .str s => "'" ++ s ++ "'"
  | .list items => "[" ++ String.intercalate ", " (pyReprList items) ++ "]"
  | .dict entries =>
    "\x7b" ++ String.intercalate ", " (pyReprEntries entries) ++ "\x7d"

def pyReprList : List PyVal → List String
  | [] => []
  | v :: rest => pyRepr v :: pyReprList rest

def pyReprEntries : List (String × PyVal) → List String
  | [] => []
  | (k, v) :: rest =>
    ("'" ++ k ++ "': " ++ pyRepr v) :: pyReprEntries rest

end

/-- Python `str(v)`: identity on strings, `repr` on everything else
(`str(None) = "None"`, `str(True) = "True"`, numbers in decimal). -/
def pyStr : PyVal → String
  | .str s => s
  | v => pyRepr v

/-- The `coerce_to_string(v)` of `schema.py`: lists are joined with `"; "`
element-wise through `str`, dicts are JSON-serialized, `None` becomes `""`,
anything else goes through `str`. -/
def coerce_to_string : PyVal → String
  | .list items => String.intercalate "; " (items.map pyStr)
  | .dict entries => jsonDumps (.dict entries)
  | .null => ""
  | v => pyStr v

/-- Field names of `TenderMeta` in declaration order. -/
def TENDER_META_FIELDS : List String :=
  ["tender_id", "tender_title", "portal", "department", "issuing_authority",
   "country", "state", "funded_project", "funding_agency",
   "organization_address", "organization_telephone", "organization_email",
   "organization_fax", "tender_document_date", "submission_instructions",
   "type_of_bid", "item_category", "total_quantity", "boq_title"]

/-- Field names of `ScopeOfWork`. -/
def SCOPE_OF_WORK_FIELDS : List String :=
  ["description", "deliverables", "quantity", "technical_specifications",
   "location", "duration"]

/-- Field names of `KeyDates`. -/
def KEY_DATES_FIELDS : List String :=
  ["publication_date", "bid_start", "bid_end", "pre_bid_meeting_date",
   "pre_bid_meeting_location", "technical_bid_opening",
   "financial_bid_opening", "contract_start", "bid_validity",
   "project_duration", "date_and_time_of_issue",
   "due_date_and_time_of_submission"]

/-- Field names of `EligibilitySnapshot`. -/
def ELIGIBILITY_FIELDS : List String :=
  ["who_can_bid", "experience_required", "turnover_requirement",
   "minimum_years_in_business", "local_content_requirement",
   "msme_startup_exemption", "consortium_or_jv_allowed",
   "international_bidders_allowed", "specific_licenses_required",
   "past_performance_requirement", "bidder_technical_infrastructure",
   "oem_turnover_requirement", "mse_relaxation", "startup_relaxation",
   "detailed_pre_qualification_criteria"]

/-- Field names of `FinancialRequirements`. -/
def FINANCIAL_FIELDS : List String :=
  ["emd", "emd_exemption", "tender_fee", "performance_security",
   "retention_money", "epbg_details", "payment_terms", "advance_payment",
   "mobilization_advance"]

/-- Field names of `LegalAndRiskClauses`. -/
def LEGAL_FIELDS : List String :=
  ["blacklisting_clause", "arbitration_clause", "mediation_clause",
   "liquidated_damages", "force_majeure", "termination_clause",
   "warranty_period", "special_restrictions", "rejection_of_bid",
   "splitting_of_work"]

/-- Field names of `VendorDecisionHint`. -/
def VENDOR_HINT_FIELDS : List String :=
  ["eligible_if", "not_eligible_if", "key_risks",
   "competitive_advantage_if"]

/-- Field names of `AdditionalInformation`. -/
def ADDITIONAL_FIELDS : List String :=
  ["evaluation_criteria", "selection_method", "price_preference",
   "special_conditions", "contact_information", "clarification_process",
   "detailed_evaluation_scoring_criteria", "buyer_added_atc",
   "technical_clarification_time", "evaluation_method", "bid_to_ra_enabled",
   "other_critical_info"]

/-- Validation of one section model (`TenderMeta`, `KeyDates`, ...): every
declared field has `str` type with default `""` and a `mode="before"`
validator applying `coerce_to_string`.  An absent section yields the
default instance; a dict is validated field by field (absent field →
default `""`, present field → coerced); any other value is rejected by
pydantic. -/
def validateSection (fields : List String) (v : Option PyVal) :
    Option (List (String × PyVal)) :=
  match v with
  | none => some (fields.map (fun f => (f, PyVal.str "")))
  | some (PyVal.dict m) =>
    some (fields.map (fun f =>
      (f, PyVal.str
        (match dictGet m f with
         | some x => coerce_to_string x
         | none => ""))))
  | some _ => none

/-- The `coerce_documents_required` validator of `TenderSummary`: a bare
string becomes a one-element list, list elements go through `str`, and any
other value (including an absent field) becomes `[]`. -/
def coerce_documents (v : Option PyVal) : List String :=
  match v with
  | some (PyVal.str s) => [s]
  | some (PyVal.list items) => items.map pyStr
  | some _ => []
  | none => []

/-- A plain `str` field with no `before`-validator (`executive_summary`):
pydantic accepts only a JSON string (default `""` when absent). -/
def validateStrStrict (v : Option PyVal) : Option String :=
  match v with
  | none => some ""
  | some (PyVal.str s) => some s
  | some _ => none

/-- A plain `List[str]` field with no `before`-validator
(`external_links`): pydantic accepts only a list of strings (default `[]`
when absent). -/
def validateStrListStrict (v : Option PyVal) : Option (List String) :=
  match v with
  | none => some []
  | some (PyVal.list items) =>
    items.mapM (fun i =>
      match i with
      | PyVal.str s => some s
      | _ => none)
  | some _ => none

/-- The `TenderSummary(**input).model_dump()` of `schema.py`: validates every
field of the root model (rejecting inputs pydantic would reject) and
returns the dumped record.  Extra keys of the input are ignored. -/
def TenderSummary_validate (input : List (String × PyVal)) :
    Option (List (String × PyVal)) := do
  let tm ← validateSection TENDER_META_FIELDS (dictGet input "tender_meta")
  let sow ← validateSection SCOPE_OF_WORK_FIELDS
    (dictGet input "scope_of_work")
  let kd ← validateSection KEY_DATES_FIELDS (dictGet input "key_dates")
  let es ← validateSection ELIGIBILITY_FIELDS
    (dictGet input "eligibility_snapshot")
  let fr ← validateSection FINANCIAL_FIELDS
    (dictGet input "financial_requirements")
  let lr ← validateSection LEGAL_FIELDS
    (dictGet input "legal_and_risk_clauses")
  let vh ← validateSection VENDOR_HINT_FIELDS
    (dictGet input "vendor_decision_hint")
  let ai ← validateSection ADDITIONAL_FIELDS
    (dictGet input "additional_important_information")
  let docs := coerce_documents (dictGet input "documents_required")
  let onl := coerce_documents (dictGet input "online_submission_documents")
  let ofl := coerce_documents (dictGet input "offline_submission_documents")
  let pre :=
    match dictGet input "pre_qualification_requirement" with
    | some v => coerce_to_string v
    | none => ""
  let exec ← validateStrStrict (dictGet input "executive_summary")
  let links ← validateStrListStrict (dictGet input "external_links")
  some
    [("tender_meta", PyVal.dict tm),
     ("scope_of_work", PyVal.dict sow),
     ("key_dates", PyVal.dict kd),
     ("eligibility_snapshot", PyVal.dict es),
     ("financial_requirements", PyVal.dict fr),
     ("documents_required", PyVal.list (docs.map PyVal.str)),
     ("online_submission_documents", PyVal.list (onl.map PyVal.str)),
     ("offline_submission_documents", PyVal.list (ofl.map PyVal.str)),
     ("legal_and_risk_clauses", PyVal.dict lr),
     ("vendor_decision_hint", PyVal.dict vh),
     ("additional_important_information", PyVal.dict ai),
     ("pre_qualification_requirement", PyVal.str pre),
     ("executive_summary", PyVal.str exec),
     ("external_links", PyVal.list (links.map PyVal.str))]

mutual

/-- Every leaf of the value is a string or a list of strings (checked
recursively through dicts). -/
def stringLeavesOnly : PyVal → Bool
  | .str _ => true
  | .list items =>
    items.all (fun i =>
      match i with
      | PyVal.str _ => true
      | _ => false)
  | .dict entries => entriesLeavesOK entries
  | _ => false

def entriesLeavesOK : List (String × PyVal) → Bool
  | [] => true
  | (_, v) :: rest => stringLeavesOnly v && entriesLeavesOK rest

end

end Schema


theorem dictGet_dictSet_same (d : List (String × PyVal)) (k : String)
    (v : PyVal) : dictGet (dictSet d k v) k = some v := by
  induction d with
  | nil => simp [dictSet, dictGet]
  | cons hd tl ih =>
    obtain ⟨k', v'⟩ := hd
    by_cases h : k' = k <;> simp [dictSet, dictGet, h, ih]

theorem dictGet_dictSet_ne (d : List (String × PyVal)) (k' k : String)
    (v : PyVal) (h : k' ≠ k) : dictGet (dictSet d k' v) k = dictGet d k := by
  induction d with
  | nil => simp [dictSet, dictGet, h]
  | cons hd tl ih =>
    obtain ⟨k₀, v₀⟩ := hd
    by_cases h0 : k₀ = k'
    · subst h0; simp [dictSet, dictGet, h]
    · simp [dictSet, dictGet, h0, h, ih]

namespace GapFiller

/-- Unfolding lemma: one `_deep_merge` step on a non-dict update value. -/
theorem deepMerge_cons_ne_dict (base : List (String × PyVal)) (k : String)
    (v : PyVal) (rest : List (String × PyVal))
    (h : ∀ u, v ≠ PyVal.dict u) :
    deepMerge base ((k, v) :: rest) =
      deepMerge (if inEmptyIndicators v then base else dictSet base k v)
        rest := by
  cases v with
  | dict u => exact absurd rfl (h u)
  | null => rw [deepMerge]; try exact fun u hu => PyVal.noConfusion hu
  | bool b => rw [deepMerge]; exact fun u hu => PyVal.noConfusion hu
  | int n => rw [deepMerge]; exact fun u hu => PyVal.noConfusion hu
  | str s => rw [deepMerge]; exact fun u hu => PyVal.noConfusion hu
  | list l => rw [deepMerge]; exact fun u hu => PyVal.noConfusion hu

/-- Unfolding lemma: one `_deep_merge` step when both sides hold dicts. -/
theorem deepMerge_cons_dict_some (base : List (String × PyVal)) (k : String)
    (u rest b : List (String × PyVal))
    (hb : dictGet base k = some (PyVal.dict b)) :
    deepMerge base ((k, PyVal.dict u) :: rest) =
      deepMerge (dictSet base k (PyVal.dict (deepMerge b u))) rest := by
  rw [deepMerge, hb]

/-- Unfolding lemma: one `_deep_merge` step on a dict update value when base
does not hold a dict at that key (a dict is never `in EMPTY_INDICATORS`,
so it always overwrites). -/
theorem deepMerge_cons_dict_other (base : List (String × PyVal)) (k : String)
    (u rest : List (String × PyVal))
    (hb : ∀ b, dictGet base k ≠ some (PyVal.dict b)) :
    deepMerge base ((k, PyVal.dict u) :: rest) =
      deepMerge (dictSet base k (PyVal.dict u)) rest := by
  rw [deepMerge]
  cases hbase : dictGet base k with
  | none => simp [inEmptyIndicators]
  | some bv =>
    cases bv with
    | dict b => exact absurd hbase (hb b)
    | null => simp [inEmptyIndicators]
    | bool b => simp [inEmptyIndicators]
    | int n => simp [inEmptyIndicators]
    | str s => simp [inEmptyIndicators]
    | list l => simp [inEmptyIndicators]

/-- Any single `_deep_merge` step leaves keys other than the processed one
bound as before. -/
theorem deepMerge_step_preserves (base : List (String × PyVal)) (k' : String)
    (v : PyVal) (rest : List (String × PyVal)) (k : String) (hk : k' ≠ k) :
    ∃ base', deepMerge base ((k', v) :: rest) = deepMerge base' rest ∧
      dictGet base' k = dictGet base k := by
  cases v with
  | dict u =>
    cases hbase : dictGet base k' with
    | some bv =>
      cases bv with
      | dict b =>
        exact ⟨_, deepMerge_cons_dict_some base k' u rest b hbase,
          dictGet_dictSet_ne _ _ _ _ hk⟩
      | null =>
        refine ⟨_, deepMerge_cons_dict_other base k' u rest ?_,
          dictGet_dictSet_ne _ _ _ _ hk⟩
        intro b hb; rw [hbase] at hb; exact PyVal.noConfusion (Option.some.inj hb)
      | bool b0 =>
        refine ⟨_, deepMerge_cons_dict_other base k' u rest ?_,
          dictGet_dictSet_ne _ _ _ _ hk⟩
        intro b hb; rw [hbase] at hb; exact PyVal.noConfusion (Option.some.inj hb)
      | int n =>
        refine ⟨_, deepMerge_cons_dict_other base k' u rest ?_,
          dictGet_dictSet_ne _ _ _ _ hk⟩
        intro b hb; rw [hbase] at hb; exact PyVal.noConfusion (Option.some.inj hb)
      | str s =>
        refine ⟨_, deepMerge_cons_dict_other base k' u rest ?_,
          dictGet_dictSet_ne _ _ _ _ hk⟩
        intro b hb; rw [hbase] at hb; exact PyVal.noConfusion (Option.some.inj hb)
      | list l =>
        refine ⟨_, deepMerge_cons_dict_other base k' u rest ?_,
          dictGet_dictSet_ne _ _ _ _ hk⟩
        intro b hb; rw [hbase] at hb; exact PyVal.noConfusion (Option.some.inj hb)
    | none =>
      refine ⟨_, deepMerge_cons_dict_other base k' u rest ?_,
        dictGet_dictSet_ne _ _ _ _ hk⟩
      intro b hb; rw [hbase] at hb; exact Option.noConfusion hb
  | null =>
    refine ⟨_, deepMerge_cons_ne_dict base k' PyVal.null rest
      (fun u hu => PyVal.noConfusion hu), ?_⟩
    simp [inEmptyIndicators]
  | bool b =>
    refine ⟨_, deepMerge_cons_ne_dict base k' (PyVal.bool b) rest
      (fun u hu => PyVal.noConfusion hu), ?_⟩
    simp [inEmptyIndicators, dictGet_dictSet_ne _ _ _ _ hk]
  | int n =>
    refine ⟨_, deepMerge_cons_ne_dict base k' (PyVal.int n) rest
      (fun u hu => PyVal.noConfusion hu), ?_⟩
    simp [inEmptyIndicators, dictGet_dictSet_ne _ _ _ _ hk]
  | str s =>
    refine ⟨_, deepMerge_cons_ne_dict base k' (PyVal.str s) rest
      (fun u hu => PyVal.noConfusion hu), ?_⟩
    by_cases hemp : inEmptyIndicators (PyVal.str s) = true <;>
      simp [hemp, dictGet_dictSet_ne _ _ _ _ hk]
  | list l =>
    refine ⟨_, deepMerge_cons_ne_dict base k' (PyVal.list l) rest
      (fun u hu => PyVal.noConfusion hu), ?_⟩
    simp [inEmptyIndicators, dictGet_dictSet_ne _ _ _ _ hk]

/-- Keys never touched by the update dict keep their base binding. -/
theorem deepMerge_dictGet_of_not_mem (updates : List (String × PyVal)) :
    ∀ (base : List (String × PyVal)) (k : String),
      (∀ p ∈ updates, p.1 ≠ k) →
      dictGet (deepMerge base updates) k = dictGet base k := by
  induction updates with
  | nil => intro base k _; simp [deepMerge]
  | cons hd rest ih =>
    intro base k hmem
    obtain ⟨k', v'⟩ := hd
    have hk : k' ≠ k := hmem (k', v') (List.mem_cons_self _ _)
    have hrest : ∀ p ∈ rest, p.1 ≠ k :=
      fun p hp => hmem p (List.mem_cons_of_mem _ hp)
    obtain ⟨base', heq, hpres⟩ := deepMerge_step_preserves base k' v' rest k hk
    rw [heq, ih base' k hrest, hpres]

/-- A key whose (unique) update value is empty in the code's exact sense
keeps its base binding through `_deep_merge`. -/
theorem deepMerge_dictGet_of_empty (updates : List (String × PyVal)) :
    ∀ (base : List (String × PyVal)) (k : String) (v : PyVal),
      keysNodup updates = true →
      dictGet updates k = some v →
      inEmptyIndicators v = true →
      dictGet (deepMerge base updates) k = dictGet base k := by
  induction updates with
  | nil => intro base k v _ hget _; simp [dictGet] at hget
  | cons hd rest ih =>
    intro base k v hnd hget hemp
    obtain ⟨k', v'⟩ := hd
    have hnd' : (!(rest.any (fun p => p.1 == k')) && keysNodup rest) = true :=
      hnd
    simp only [Bool.and_eq_true, Bool.not_eq_true'] at hnd'
    by_cases hk : k' = k
    · subst hk
      have hv : v' = v := by simpa [dictGet] using hget
      have hemp' : inEmptyIndicators v' = true := hv ▸ hemp
      have hnot : ∀ p ∈ rest, p.1 ≠ k' := by
        intro p hp
        have h1 := hnd'.1
        rw [List.any_eq_false] at h1
        simpa using h1 p hp
      cases v' with
      | null =>
        rw [deepMerge_cons_ne_dict base k' PyVal.null rest
          (fun u hu => PyVal.noConfusion hu)]
        simp [inEmptyIndicators, deepMerge_dictGet_of_not_mem rest _ k' hnot]
      | str s =>
        rw [deepMerge_cons_ne_dict base k' (PyVal.str s) rest
          (fun u hu => PyVal.noConfusion hu)]
        simp [hemp', deepMerge_dictGet_of_not_mem rest _ k' hnot]
      | bool b => simp [inEmptyIndicators] at hemp'
      | int n => simp [inEmptyIndicators] at hemp'
      | list l => simp [inEmptyIndicators] at hemp'
      | dict d => simp [inEmptyIndicators] at hemp'
    · have hget' : dictGet rest k = some v := by simpa [dictGet, hk] using hget
      obtain ⟨base', heq, hpres⟩ :=
        deepMerge_step_preserves base k' v' rest k hk
      rw [heq, ih base' k v hnd'.2 hget' hemp, hpres]

/-- When base and updates both hold a dict at a key, `_deep_merge` recurses
and stores the merged sub-dict there. -/
theorem deepMerge_dictGet_dict (updates : List (String × PyVal)) :
    ∀ (base : List (String × PyVal)) (k : String)
      (u b : List (String × PyVal)),
      keysNodup updates = true →
      dictGet updates k = some (PyVal.dict u) →
      dictGet base k = some (PyVal.dict b) →
      dictGet (deepMerge base updates) k =
        some (PyVal.dict (deepMerge b u)) := by
  induction updates with
  | nil => intro base k u b _ hget _; simp [dictGet] at hget
  | cons hd rest ih =>
    intro base k u b hnd hget hb
    obtain ⟨k', v'⟩ := hd
    have hnd' : (!(rest.any (fun p => p.1 == k')) && keysNodup rest) = true :=
      hnd
    simp only [Bool.and_eq_true, Bool.not_eq_true'] at hnd'
    by_cases hk : k' = k
    · subst hk
      have hv : v' = PyVal.dict u := by simpa [dictGet] using hget
      subst hv
      have hnot : ∀ p ∈ rest, p.1 ≠ k' := by
        intro p hp
        have h1 := hnd'.1
        rw [List.any_eq_false] at h1
        simpa using h1 p hp
      rw [deepMerge_cons_dict_some base k' u rest b hb]
      rw [deepMerge_dictGet_of_not_mem rest _ k' hnot, dictGet_dictSet_same]
    · have hget' : dictGet rest k = some (PyVal.dict u) := by
        simpa [dictGet, hk] using hget
      obtain ⟨base', heq, hpres⟩ :=
        deepMerge_step_preserves base k' v' rest k hk
      rw [heq, ih base' k u b hnd'.2 hget' (hpres.trans hb)]

theorem deepMerge_nil (base : List (String × PyVal)) :
    deepMerge base [] = base := by rw [deepMerge]

end GapFiller

theorem getPath_singleton (d : List (String × PyVal)) (k : String) :
    getPath (PyVal.dict d) [k] = dictGet d k := by
  cases h : dictGet d k <;> simp [getPath, h]

theorem getPath_dict_cons (d : List (String × PyVal)) (k : String)
    (rest : List String) :
    getPath (PyVal.dict d) (k :: rest) =
      ((dictGet d k).bind fun w => getPath w rest) := by
  cases h : dictGet d k <;> simp [getPath, h]

theorem getPath_ne_dict (w : PyVal) (k : String) (rest : List String)
    (h : ∀ d, w ≠ PyVal.dict d) : getPath w (k :: rest) = none := by
  cases w <;> first | rfl | exact absurd rfl (h _)

/-- Claim C1 (amended): `_deep_merge(base, {})` equals `base`; and an update
leaf that is `None` or *exactly* (case-sensitively, untrimmed) one of the
placeholder strings — the code's `value not in EMPTY_INDICATORS` test —
never overwrites the base binding at its path, provided the base holds
nested dicts along the path.  The spec's wider emptiness (trimmed,
case-insensitive tokens, or empty collections) does not protect base
values; see the counterexample. -/
theorem c1_deepMerge_empty_update_preserves_base
    (base updates : List (String × PyVal)) (p : List String) (k : String)
    (v : PyVal)
    (h1 : nodupAlong updates (p ++ [k]) = true)
    (h2 : getPath (PyVal.dict updates) (p ++ [k]) = some v)
    (h3 : GapFiller.inEmptyIndicators v = true)
    (h4 : ∀ q, q <+: p →
      ∃ db, getPath (PyVal.dict base) q = some (PyVal.dict db)) :
    GapFiller.deepMerge base [] = base ∧
    getPath (PyVal.dict (GapFiller.deepMerge base updates)) (p ++ [k]) =
      getPath (PyVal.dict base) (p ++ [k]) := by
  refine ⟨GapFiller.deepMerge_nil base, ?_⟩
  induction p generalizing base updates with
  | nil =>
    have hget : dictGet updates k = some v := by
      simpa [getPath_singleton] using h2
    have h1' := h1
    simp only [List.nil_append, nodupAlong, Bool.and_eq_true] at h1'
    rw [List.nil_append, getPath_singleton, getPath_singleton,
      GapFiller.deepMerge_dictGet_of_empty updates base k v h1'.1 hget h3]
  | cons k₀ p' ih =>
    rw [List.cons_append] at h1 h2 ⊢
    rw [getPath_dict_cons] at h2
    cases hu₀ : dictGet updates k₀ with
    | none => rw [hu₀] at h2; simp at h2
    | some w =>
      rw [hu₀] at h2
      simp only [Option.some_bind] at h2
      obtain ⟨k₁, t, ht⟩ : ∃ a u, p' ++ [k] = a :: u := by
        cases p' with
        | nil => exact ⟨k, [], rfl⟩
        | cons a as => exact ⟨a, as ++ [k], rfl⟩
      cases w with
      | dict u =>
        obtain ⟨b, hb⟩ := h4 [k₀] ⟨p', rfl⟩
        rw [getPath_singleton] at hb
        have h1'' := h1
        simp only [nodupAlong, hu₀, Bool.and_eq_true] at h1''
        have hm := GapFiller.deepMerge_dictGet_dict updates base k₀ u b
          h1''.1 hu₀ hb
        rw [getPath_dict_cons, hm, getPath_dict_cons, hb]
        simp only [Option.some_bind]
        refine ih b u h1''.2 h2 ?_
        intro q hq
        obtain ⟨tq, htq⟩ := hq
        obtain ⟨db, hdb⟩ := h4 (k₀ :: q) ⟨tq, by simp [← htq]⟩
        rw [getPath_dict_cons, hb] at hdb
        exact ⟨db, by simpa using hdb⟩
      | null =>
        rw [ht, getPath_ne_dict _ _ _ (fun d hd => PyVal.noConfusion hd)] at h2
        exact absurd h2 (by simp)
      | bool b =>
        rw [ht, getPath_ne_dict _ _ _ (fun d hd => PyVal.noConfusion hd)] at h2
        exact absurd h2 (by simp)
      | int n =>
        rw [ht, getPath_ne_dict _ _ _ (fun d hd => PyVal.noConfusion hd)] at h2
        exact absurd h2 (by simp)
      | str s =>
        rw [ht, getPath_ne_dict _ _ _ (fun d hd => PyVal.noConfusion hd)] at h2
        exact absurd h2 (by simp)
      | list l =>
        rw [ht, getPath_ne_dict _ _ _ (fun d hd => PyVal.noConfusion hd)] at h2
        exact absurd h2 (by simp)

/-- Claim C1 witness: a concrete run of the amended theorem.  The base leaf
`"x"` at key `"a"` survives a merge whose update holds the exactly-empty
leaf `""` at `"a"`. -/
theorem c1_deepMerge_empty_update_preserves_base_witness :
    getPath (PyVal.dict (GapFiller.deepMerge
        [("a", PyVal.str "x")] [("a", PyVal.str "")]))
      ([] ++ ["a"]) =
      getPath (PyVal.dict [("a", PyVal.str "x")]) ([] ++ ["a"]) :=
  (c1_deepMerge_empty_update_preserves_base
    [("a", PyVal.str "x")] [("a", PyVal.str "")] [] "a" (PyVal.str "")
    rfl rfl rfl
    (fun q hq => ⟨[("a", PyVal.str "x")], by
      rw [List.prefix_nil.mp hq]; rfl⟩)).2

/-- Claim C1 counterexample: `_deep_merge` replaces the non-empty base leaf
`"x"` with the update leaf `"TBD"`, which IS empty under the spec's
placeholder definition (case-insensitive after trimming) — the claim as
stated is false because the code's membership test is exact, not
normalised. -/
theorem c1_counterexample :
    GapFiller.deepMerge [("a", PyVal.str "x")] [("a", PyVal.str "TBD")] =
      [("a", PyVal.str "TBD")] ∧
    GapFiller.specEmptyLeaf (PyVal.str "TBD") = true ∧
    GapFiller.specEmptyLeaf (PyVal.str "x") = false ∧
    GapFiller.inEmptyIndicators (PyVal.str "TBD") = false := by
  refine ⟨?_, rfl, rfl, rfl⟩
  rw [GapFiller.deepMerge_cons_ne_dict _ _ _ _
    (fun u hu => PyVal.noConfusion hu)]
  rw [show GapFiller.inEmptyIndicators (PyVal.str "TBD") = false from rfl]
  simp only [Bool.false_eq_true, if_false]
  rw [show dictSet [("a", PyVal.str "x")] "a" (PyVal.str "TBD") =
    [("a", PyVal.str "TBD")] from rfl]
  exact GapFiller.deepMerge_nil _

/-- Claim C2 (amended): when the single targeted gap-refill extraction call
fails (retries exhausted, or its response is not parseable JSON),
`fill_missing_fields` catches the exception, logs it, and returns the
draft record unchanged — the failure does NOT propagate to the caller. -/
theorem c2_gap_refill_failure_returns_draft
    (draftJson : List (String × PyVal)) (e : String) :
    GapFiller.fillMissingFields draftJson (Except.error e) = draftJson := by
  rw [GapFiller.fillMissingFields]
  split <;> rfl

/-- Claim C2 counterexample: a draft with a critical gap
(`key_dates.bid_end = ""`) whose gap-refill call fails still makes
`fill_missing_fields` return the draft normally — refuting the claim that
the failure propagates as a fatal error. -/
theorem c2_counterexample :
    (GapFiller.findMissingFields
        [("key_dates", PyVal.dict [("bid_end", PyVal.str "")])] "" "").filter
      (·.isCritical) ≠ [] ∧
    GapFiller.fillMissingFields
        [("key_dates", PyVal.dict [("bid_end", PyVal.str "")])]
        (Except.error "retries exhausted") =
      [("key_dates", PyVal.dict [("bid_end", PyVal.str "")])] := by
  constructor
  · rw [GapFiller.findMissingFields, GapFiller.findMissingFields,
      GapFiller.findMissingFields, GapFiller.findMissingFields]
    simp [GapFiller.isCriticalField, GapFiller.CRITICAL_FIELDS,
      GapFiller.EMPTY_INDICATOR_STRINGS, pyStrip, pyLower, GapFiller.childPath]
  · rw [GapFiller.fillMissingFields]
    split <;> rfl



namespace BatchProcessor

theorem intercalate_cons_cons (s a b : List Char) (t : List (List Char)) :
    List.intercalate s (a :: b :: t) =
      a ++ s ++ List.intercalate s (b :: t) := by
  simp [List.intercalate, List.intersperse]

theorem intercalate_singleton (s a : List Char) :
    List.intercalate s [a] = a := by
  simp [List.intercalate, List.intersperse]

/-- A string with no line-boundary characters splits into itself (or into no
lines at all when empty). -/
theorem pySplitLines_no_break (l : List Char)
    (h : ∀ c ∈ l, isLineBreak c = false) :
    pySplitLines l = if l = [] then [] else [l] := by
  induction l with
  | nil => simp [pySplitLines]
  | cons c l' ih =>
    have hc : isLineBreak c = false := h c (List.mem_cons_self _ _)
    have h' : ∀ x ∈ l', isLineBreak x = false :=
      fun x hx => h x (List.mem_cons_of_mem _ hx)
    rcases l' with _ | ⟨d, l''⟩
    · simp [pySplitLines, hc]
    · have hrec := ih h'
      simp only [reduceCtorEq, if_false] at hrec
      simp [pySplitLines, hc, hrec]

/-- Splitting a boundary-free line followed by `'\n'` and a remainder yields
that line followed by the split of the remainder. -/
theorem pySplitLines_append_newline (l rest : List Char)
    (h : ∀ c ∈ l, isLineBreak c = false) :
    pySplitLines (l ++ '\n' :: rest) = l :: pySplitLines rest := by
  induction l with
  | nil =>
    rw [List.nil_append, pySplitLines]
    have h1 : isLineBreak '\n' = true := rfl
    have h2 : ('\n' == '\r') = false := rfl
    simp [h1, h2]
  | cons c l' ih =>
    have hc : isLineBreak c = false := h c (List.mem_cons_self _ _)
    have h' : ∀ x ∈ l', isLineBreak x = false :=
      fun x hx => h x (List.mem_cons_of_mem _ hx)
    rw [List.cons_append, pySplitLines, hc]
    rw [ih h']
    simp

/-- Round trip: joining boundary-free line groups with `'\n'` and re-splitting
returns the group, except that a trailing empty line is lost. -/
theorem pySplitLines_intercalate (g : List (List Char)) (hg : g ≠ [])
    (h : ∀ l ∈ g, ∀ c ∈ l, isLineBreak c = false) :
    pySplitLines (List.intercalate ['\n'] g) =
      if g.getLast? = some [] then g.dropLast else g := by
  induction g with
  | nil => exact absurd rfl hg
  | cons l g' ih =>
    rcases g' with _ | ⟨l₂, g''⟩
    · rw [intercalate_singleton,
        pySplitLines_no_break l (h l (List.mem_cons_self _ _))]
      by_cases hl : l = []
      · subst hl; simp
      · simp [hl]
    · have hmem : ∀ x ∈ l₂ :: g'', ∀ c ∈ x, isLineBreak c = false :=
        fun x hx => h x (List.mem_cons_of_mem _ hx)
      have hstep : l ++ ['\n'] ++ List.intercalate ['\n'] (l₂ :: g'') =
          l ++ '\n' :: List.intercalate ['\n'] (l₂ :: g'') := by simp
      rw [intercalate_cons_cons, hstep,
        pySplitLines_append_newline l _ (h l (List.mem_cons_self _ _)),
        ih (by simp) hmem]
      by_cases hlast : (l₂ :: g'').getLast? = some ([] : List Char) <;>
        simp [hlast, List.getLast?_cons_cons]

end BatchProcessor

namespace BatchProcessor

/-- The grouping loop is lossless: the concatenation of all emitted groups is
the pending chunk followed by the remaining lines. -/
theorem chunkTextAux_join (m : Nat) (lines : List (List Char)) :
    ∀ cur len, (chunkTextAux m lines cur len).flatten = cur ++ lines := by
  induction lines with
  | nil =>
    intro cur len
    rw [chunkTextAux]
    by_cases h : cur.isEmpty
    · rw [List.isEmpty_iff] at h; simp [h]
    · simp [h]
  | cons line rest ih =>
    intro cur len
    rw [chunkTextAux]
    split
    · simp [ih]
    · simp [ih]

/-- Every emitted group holds at least one line. -/
theorem chunkTextAux_ne_nil (m : Nat) (lines : List (List Char)) :
    ∀ cur len g, g ∈ chunkTextAux m lines cur len → g ≠ [] := by
  induction lines with
  | nil =>
    intro cur len g hg
    rw [chunkTextAux] at hg
    by_cases h : cur.isEmpty
    · simp [h] at hg
    · simp [h] at hg
      subst hg
      simpa [List.isEmpty_iff] using h
  | cons line rest ih =>
    intro cur len g hg
    rw [chunkTextAux] at hg
    split at hg
    · rcases List.mem_cons.mp hg with h | h
      · subst h
        rename_i hcond
        simp only [Bool.and_eq_true, Bool.not_eq_true'] at hcond
        simpa [List.isEmpty_iff] using hcond.2
      · exact ih _ _ g h
    · exact ih _ _ g hg

/-- Every line inside an emitted group comes from the pending chunk or the
remaining input lines. -/
theorem chunkTextAux_mem (m : Nat) (lines : List (List Char)) (cur : List (List Char))
    (len : Nat) (g : List Char) (grp : List (List Char))
    (hgrp : grp ∈ chunkTextAux m lines cur len) (hg : g ∈ grp) :
    g ∈ cur ++ lines := by
  rw [← chunkTextAux_join m lines cur len]
  exact List.mem_flatten.mpr ⟨grp, hgrp, hg⟩

/-- Lines produced by `pySplitLines` contain no line-boundary characters. -/
theorem pySplitLines_no_break_mem (s : List Char) :
    ∀ l ∈ pySplitLines s, ∀ c ∈ l, isLineBreak c = false := by
  induction s using pySplitLines.induct with
  | case1 => intro l hl; simp [pySplitLines] at hl
  | case2 c rest hbr ih =>
    intro l hl
    rw [pySplitLines, if_pos hbr] at hl
    rcases List.mem_cons.mp hl with h | h
    · subst h; intro c' hc'; simp at hc'
    · exact ih l h
  | case3 c rest hbr hrec ih =>
    intro l hl
    rw [pySplitLines, if_neg hbr, hrec] at hl
    simp only [List.mem_singleton] at hl
    subst hl
    intro c' hc'
    rcases List.mem_singleton.mp hc' with rfl
    simpa using hbr
  | case4 c rest hbr l₀ ls hrec ih =>
    intro l hl
    rw [pySplitLines, if_neg hbr, hrec] at hl
    rcases List.mem_cons.mp hl with h | h
    · subst h
      intro c' hc'
      rcases List.mem_cons.mp hc' with rfl | h'
      · simpa using hbr
      · exact ih l₀ (hrec ▸ List.mem_cons_self _ _) c' h'
    · exact ih l (hrec ▸ List.mem_cons_of_mem _ h)

end BatchProcessor

namespace BatchProcessor

theorem sum_map_length_add_one (cur : List (List Char)) :
    (cur.map (fun l => l.length + 1)).sum =
      (cur.map List.length).sum + cur.length := by
  induction cur with
  | nil => simp
  | cons l rest ih => simp [ih]; omega

theorem length_intercalate (g : List (List Char)) (hg : g ≠ []) :
    (List.intercalate ['\n'] g).length =
      (g.map List.length).sum + (g.length - 1) := by
  induction g with
  | nil => exact absurd rfl hg
  | cons l g' ih =>
    rcases g' with _ | ⟨l₂, g''⟩
    · simp [intercalate_singleton]
    · rw [intercalate_cons_cons]
      have hrec := ih (by simp)
      simp [hrec]
      omega

/-- Size invariant of the accumulation loop: as long as the running counter
matches the pending chunk and the pending chunk satisfies the bound, every
emitted group of two or more lines joins to at most `maxChars` characters
(counted as total line length plus one separator between lines). -/
theorem chunkTextAux_bound (m : Nat) (lines : List (List Char)) :
    ∀ cur len,
      len = (cur.map (fun l => l.length + 1)).sum →
      (2 ≤ cur.length → (cur.map List.length).sum + (cur.length - 1) ≤ m) →
      ∀ g ∈ chunkTextAux m lines cur len,
        2 ≤ g.length → (g.map List.length).sum + (g.length - 1) ≤ m := by
  induction lines with
  | nil =>
    intro cur len hlen hP g hg
    rw [chunkTextAux] at hg
    by_cases h : cur.isEmpty
    · simp [h] at hg
    · simp [h] at hg; subst hg; exact hP
  | cons line rest ih =>
    intro cur len hlen hP g hg
    rw [chunkTextAux] at hg
    split at hg
    · rcases List.mem_cons.mp hg with h | h
      · subst h; exact hP
      · refine ih [line] (line.length + 1) (by simp) ?_ g h
        intro h2; simp at h2
    · rename_i hcond
      refine ih (cur ++ [line]) (len + line.length + 1) ?_ ?_ g hg
      · rw [hlen]; simp; try omega
      · intro h2
        by_cases hcur : cur = []
        · subst hcur; simp at h2
        · have hc : (!cur.isEmpty) = true := by
            simp [List.isEmpty_iff, hcur]
          simp only [hc, Bool.and_true, Bool.not_eq_true] at hcond
          have hle : len + line.length ≤ m := by
            simpa using hcond
          have hS := sum_map_length_add_one cur
          simp only [List.map_append, List.sum_append, List.length_append,
            List.map_cons, List.map_nil, List.sum_cons, List.sum_nil,
            List.length_cons, List.length_nil]
          omega

end BatchProcessor

/-- Re-splitting each chunk recovers exactly its line group when no group
ends in an empty line. -/
theorem flatten_map_pySplitLines (gs : List (List (List Char)))
    (hne : ∀ g ∈ gs, g ≠ [])
    (hnb : ∀ g ∈ gs, ∀ l ∈ g, ∀ c ∈ l, BatchProcessor.isLineBreak c = false)
    (hlast : ∀ g ∈ gs, g.getLast? ≠ some []) :
    (gs.map (fun g =>
      BatchProcessor.pySplitLines (List.intercalate ['\n'] g))).flatten =
      gs.flatten := by
  induction gs with
  | nil => rfl
  | cons g gs' ih =>
    simp only [List.map_cons, List.flatten_cons]
    rw [BatchProcessor.pySplitLines_intercalate g
      (hne g (List.mem_cons_self _ _)) (hnb g (List.mem_cons_self _ _))]
    rw [if_neg (hlast g (List.mem_cons_self _ _))]
    rw [ih (fun x hx => hne x (List.mem_cons_of_mem _ hx))
      (fun x hx => hnb x (List.mem_cons_of_mem _ hx))
      (fun x hx => hlast x (List.mem_cons_of_mem _ hx))]

/-- Claim C3 (amended): `chunk_text` partitions `text.splitlines()` losslessly
into consecutive groups — the concatenation of the groups is exactly the
original line sequence, and each chunk is its group joined with `"\n"`.
Re-splitting the chunk strings reproduces the original line sequence
whenever no chunk's last line is empty; a chunk whose final line is empty
loses that line on re-splitting (see the counterexample), so the claim as
stated over the chunks' own line sequences fails. -/
theorem c3_chunk_lines_lossless (text : String) (m : Nat)
    (hlast : ∀ g ∈ BatchProcessor.chunkTextAux m
      (BatchProcessor.pySplitLines text.data) [] 0, g.getLast? ≠ some []) :
    (BatchProcessor.chunkTextAux m
        (BatchProcessor.pySplitLines text.data) [] 0).flatten =
      BatchProcessor.pySplitLines text.data ∧
    BatchProcessor.chunk_text text m =
      (BatchProcessor.chunkTextAux m
        (BatchProcessor.pySplitLines text.data) [] 0).map
        (fun g => ⟨List.intercalate ['\n'] g⟩) ∧
    ((BatchProcessor.chunk_text text m).map
        (fun c => BatchProcessor.pySplitLines c.data)).flatten =
      BatchProcessor.pySplitLines text.data := by
  refine ⟨by simpa using BatchProcessor.chunkTextAux_join m _ [] 0, rfl, ?_⟩
  have hne : ∀ g ∈ BatchProcessor.chunkTextAux m
      (BatchProcessor.pySplitLines text.data) [] 0, g ≠ [] :=
    fun g hg => BatchProcessor.chunkTextAux_ne_nil m _ [] 0 g hg
  have hnb : ∀ g ∈ BatchProcessor.chunkTextAux m
      (BatchProcessor.pySplitLines text.data) [] 0,
      ∀ l ∈ g, ∀ c ∈ l, BatchProcessor.isLineBreak c = false := by
    intro g hg l hl
    have hmem : l ∈ BatchProcessor.pySplitLines text.data := by
      have := BatchProcessor.chunkTextAux_mem m _ [] 0 l g hg hl
      simpa using this
    exact BatchProcessor.pySplitLines_no_break_mem _ l hmem
  rw [BatchProcessor.chunk_text, List.map_map]
  have : ((fun c : String => BatchProcessor.pySplitLines c.data) ∘
      fun g => (⟨List.intercalate ['\n'] g⟩ : String)) =
      fun g => BatchProcessor.pySplitLines (List.intercalate ['\n'] g) := rfl
  rw [this, flatten_map_pySplitLines _ hne hnb hlast]
  simpa using BatchProcessor.chunkTextAux_join m _ [] 0

/-- Claim C3 witness: a concrete run of the amended theorem on a two-line text
chunked at `max_chars = 2`, whose chunks re-split to exactly the original
lines. -/
theorem c3_chunk_lines_lossless_witness :
    ((BatchProcessor.chunk_text "ab\ncd" 2).map
        (fun c => BatchProcessor.pySplitLines c.data)).flatten =
      BatchProcessor.pySplitLines ("ab\ncd".data) := by
  refine (c3_chunk_lines_lossless "ab\ncd" 2 ?_).2.2
  intro g hg
  have h1 : BatchProcessor.pySplitLines ("ab\ncd".data) =
      [['a', 'b'], ['c', 'd']] := by
    have : ("ab\ncd".data) = ['a', 'b'] ++ '\n' :: ['c', 'd'] := rfl
    rw [this, BatchProcessor.pySplitLines_append_newline _ _ (by decide)]
    rw [BatchProcessor.pySplitLines_no_break _ (by decide)]
    rfl
  rw [h1] at hg
  have hctx : BatchProcessor.chunkTextAux 2 [['a', 'b'], ['c', 'd']] [] 0 =
      [[['a', 'b']], [['c', 'd']]] := by decide
  rw [hctx] at hg
  simp at hg
  rcases hg with rfl | rfl <;> decide

/-- Claim C3 counterexample: for the text `"\n"` (one empty line), the single
chunk produced is the empty string, whose line sequence is empty — the
empty line is dropped, so concatenating the chunks' line sequences does not
reproduce `text.splitlines()`. -/
theorem c3_counterexample :
    BatchProcessor.chunk_text "\n" 8000 = [""] ∧
    BatchProcessor.pySplitLines ("\n".data) = [[]] ∧
    ((BatchProcessor.chunk_text "\n" 8000).map
        (fun c => BatchProcessor.pySplitLines c.data)).flatten = [] := by
  have h1 : BatchProcessor.pySplitLines ("\n".data) = [[]] := by
    rw [show ("\n".data) = ['\n'] from rfl, BatchProcessor.pySplitLines]
    simp [show BatchProcessor.isLineBreak '\n' = true from rfl,
      show ('\n' == '\r') = false from rfl, BatchProcessor.pySplitLines]
  have h2 : BatchProcessor.chunk_text "\n" 8000 = [""] := by
    rw [BatchProcessor.chunk_text, h1]
    decide
  refine ⟨h2, h1, ?_⟩
  rw [h2]
  simp [BatchProcessor.pySplitLines]

/-- Claim C10: every chunk of `chunk_text` that holds two or more lines has
length at most `max_chars`; a chunk longer than `max_chars` is a single
line longer than `max_chars`, emitted whole as its own chunk. -/
theorem c10_oversize_chunk_is_single_line (text : String) (m : Nat)
    (chunk : String) (hc : chunk ∈ BatchProcessor.chunk_text text m) :
    (2 ≤ (BatchProcessor.pySplitLines chunk.data).length →
      chunk.length ≤ m) ∧
    (m < chunk.length →
      BatchProcessor.pySplitLines chunk.data = [chunk.data] ∧
      m < chunk.data.length) := by
  rw [BatchProcessor.chunk_text, List.mem_map] at hc
  obtain ⟨g, hg, rfl⟩ := hc
  have hne : g ≠ [] := BatchProcessor.chunkTextAux_ne_nil m _ [] 0 g hg
  have hnb : ∀ l ∈ g, ∀ c ∈ l, BatchProcessor.isLineBreak c = false := by
    intro l hl
    have hmem : l ∈ BatchProcessor.pySplitLines text.data := by
      have := BatchProcessor.chunkTextAux_mem m _ [] 0 l g hg hl
      simpa using this
    exact BatchProcessor.pySplitLines_no_break_mem _ l hmem
  have hbound := BatchProcessor.chunkTextAux_bound m _ [] 0 rfl
    (by intro h; simp at h) g hg
  have hdata : ((⟨List.intercalate ['\n'] g⟩ : String)).data =
      List.intercalate ['\n'] g := rfl
  have hlenchunk : ((⟨List.intercalate ['\n'] g⟩ : String)).length =
      (g.map List.length).sum + (g.length - 1) := by
    show (List.intercalate ['\n'] g).length = _
    exact BatchProcessor.length_intercalate g hne
  have hsplit := BatchProcessor.pySplitLines_intercalate g hne hnb
  constructor
  · intro h2
    rw [hdata, hsplit] at h2
    have hglen : 2 ≤ g.length := by
      by_cases hl : g.getLast? = some ([] : List Char)
      · rw [if_pos hl] at h2
        have := List.length_dropLast g
        omega
      · rwa [if_neg hl] at h2
    rw [hlenchunk]
    exact hbound hglen
  · intro hm
    have hglen : g.length ≤ 1 := by
      by_contra hlt
      push_neg at hlt
      have := hbound hlt
      rw [hlenchunk] at hm
      omega
    rcases g with _ | ⟨l, g'⟩
    · exact absurd rfl hne
    rcases g' with _ | ⟨l₂, g''⟩
    · have hintl : List.intercalate ['\n'] [l] = l :=
        BatchProcessor.intercalate_singleton _ _
      have hlument : ((⟨List.intercalate ['\n'] [l]⟩ : String)).length =
          l.length := by rw [hintl]; rfl
      have hlnempty : l ≠ [] := by
        intro hleq
        rw [hlument, hleq] at hm
        simp at hm
      constructor
      · rw [hdata, hintl,
          BatchProcessor.pySplitLines_no_break l
            (hnb l (List.mem_cons_self _ _)), if_neg hlnempty]
      · rw [hdata, hintl]
        rw [hlument] at hm
        exact hm
    · simp at hglen

/-- Claim C10 witness: with `max_chars = 1`, the single line `"abc"` exceeds
the bound and is emitted whole as its own chunk. -/
theorem c10_oversize_chunk_is_single_line_witness :
    BatchProcessor.pySplitLines ("abc".data) = ["abc".data] ∧
    1 < ("abc".data).length := by
  have hmem : "abc" ∈ BatchProcessor.chunk_text "abc" 1 := by
    have h1 : BatchProcessor.pySplitLines ("abc".data) =
        [['a', 'b', 'c']] := by
      rw [BatchProcessor.pySplitLines_no_break _ (by decide)]
      rfl
    rw [BatchProcessor.chunk_text, h1]
    decide
  exact (c10_oversize_chunk_is_single_line "abc" 1 "abc" hmem).2 (by decide)

namespace GroqClient

/-- Componentwise description of one `consume` call. -/
theorem consume_spec (b : TokenBucket) (amount now : ℚ) :
    (b.consume amount now).2.capacity = b.capacity ∧
    (b.consume amount now).2.refillRate = b.refillRate ∧
    (b.consume amount now).2.lastRefill = now ∧
    ((b.consume amount now).1 = true ↔ min amount b.capacity ≤
      min b.capacity (b.tokens + (now - b.lastRefill) * b.refillRate)) ∧
    (b.consume amount now).2.tokens =
      (if min amount b.capacity ≤
          min b.capacity (b.tokens + (now - b.lastRefill) * b.refillRate) then
        min b.capacity (b.tokens + (now - b.lastRefill) * b.refillRate) -
          min amount b.capacity
       else
        min b.capacity (b.tokens + (now - b.lastRefill) * b.refillRate)) := by
  simp only [TokenBucket.consume]
  split <;> simp_all

/-- Invariant of a run of `consume` calls: the token level stays within
`[0, capacity]`, the configuration is unchanged, the clock does not run
backwards, and the total granted debit plus the remaining level is bounded
by the initial level plus the refill accrued over the run. -/
theorem runConsume_invariant (ops : List (ℚ × ℚ)) :
    ∀ b : TokenBucket,
      0 ≤ b.tokens → b.tokens ≤ b.capacity → 0 ≤ b.refillRate →
      opsWellFormed b.lastRefill ops →
      0 ≤ (runConsume b ops).1.tokens ∧
      (runConsume b ops).1.tokens ≤ b.capacity ∧
      (runConsume b ops).1.capacity = b.capacity ∧
      (runConsume b ops).1.refillRate = b.refillRate ∧
      b.lastRefill ≤ (runConsume b ops).1.lastRefill ∧
      (runConsume b ops).2 + (runConsume b ops).1.tokens ≤
        b.tokens +
          ((runConsume b ops).1.lastRefill - b.lastRefill) * b.refillRate := by
  induction ops with
  | nil =>
    intro b h0 h1 _ _
    refine ⟨h0, h1, rfl, rfl, le_refl _, by simp [runConsume]⟩
  | cons op ops ih =>
    obtain ⟨now, amount⟩ := op
    intro b h0 h1 hr hwf
    obtain ⟨hle, hamt, hwf'⟩ := hwf
    obtain ⟨hcap, hrate, hlast, hiff, htok⟩ := consume_spec b amount now
    have hcapnn : (0 : ℚ) ≤ b.capacity := le_trans h0 h1
    have hΔ : 0 ≤ (now - b.lastRefill) * b.refillRate :=
      mul_nonneg (by linarith) hr
    have hrefnn : 0 ≤
        min b.capacity (b.tokens + (now - b.lastRefill) * b.refillRate) :=
      le_min hcapnn (by linarith)
    have hrefcap :
        min b.capacity (b.tokens + (now - b.lastRefill) * b.refillRate) ≤
          b.capacity := min_le_left _ _
    have hrefX :
        min b.capacity (b.tokens + (now - b.lastRefill) * b.refillRate) ≤
          b.tokens + (now - b.lastRefill) * b.refillRate := min_le_right _ _
    have hmnn : 0 ≤ min amount b.capacity := le_min hamt hcapnn
    set b' := (b.consume amount now).2 with hb'
    have h0' : 0 ≤ b'.tokens := by
      rw [htok]; split
    -- granted: level - debit stays non-negative by the success condition
      · rename_i hcnd; linarith
      · exact hrefnn
    have h1' : b'.tokens ≤ b'.capacity := by
      rw [htok, hcap]; split
      · linarith
      · exact hrefcap
    have hr' : 0 ≤ b'.refillRate := by rw [hrate]; exact hr
    have hwf'' : opsWellFormed b'.lastRefill ops := by rw [hlast]; exact hwf'
    have hih := ih b' h0' h1' hr' hwf''
    obtain ⟨i0, i1, i2, i3, i4, i5⟩ := hih
    have hrun : runConsume b ((now, amount) :: ops) =
        ((runConsume b' ops).1,
          (if (b.consume amount now).1 then min amount b.capacity else 0) +
            (runConsume b' ops).2) := by
      simp only [runConsume]
    rw [hrun]
    dsimp only
    have hring : ((runConsume b' ops).1.lastRefill - b.lastRefill) *
        b.refillRate =
        ((runConsume b' ops).1.lastRefill - now) * b.refillRate +
          (now - b.lastRefill) * b.refillRate := by ring
    refine ⟨i0, by rw [hcap] at i1; exact i1, by rw [hcap] at i2; exact i2,
      by rw [hrate] at i3; exact i3, by rw [hlast] at i4; linarith, ?_⟩
    rw [hlast] at i5
    rw [hrate] at i3 i5
    split
    · rename_i hgr
      have hcnd := hiff.mp hgr
      rw [htok, if_pos hcnd] at i5
      rw [hring]
      linarith
    · rename_i hgr
      have hcnd : ¬ min amount b.capacity ≤
          min b.capacity (b.tokens + (now - b.lastRefill) * b.refillRate) := by
        intro hc
        exact hgr (hiff.mpr hc)
      rw [htok, if_neg hcnd] at i5
      rw [hring]
      linarith

end GroqClient

/-- Claim C4: each `consume` refills the level to
`min(capacity, tokens + elapsed × refill_rate)`, succeeds exactly when the
refilled level is at least `min(amount, capacity)`, and debits exactly
`min(amount, capacity)` (an amount above capacity is capped to capacity);
consequently over any well-formed run the level stays within
`[0, capacity]` and the cumulative granted debit never exceeds
`capacity + elapsed × refill_rate`.  The request and token dimensions are
two independent such buckets, so the bound holds for each. -/
theorem c4_token_bucket_budget (b : GroqClient.TokenBucket)
    (amount now : ℚ) (ops : List (ℚ × ℚ))
    (h0 : 0 ≤ b.tokens) (h1 : b.tokens ≤ b.capacity)
    (hr : 0 ≤ b.refillRate)
    (hops : GroqClient.opsWellFormed b.lastRefill ops) :
    ((b.consume amount now).1 = true ↔
      min amount b.capacity ≤
        min b.capacity (b.tokens + (now - b.lastRefill) * b.refillRate)) ∧
    ((b.consume amount now).1 = true →
      (b.consume amount now).2.tokens =
        min b.capacity (b.tokens + (now - b.lastRefill) * b.refillRate) -
          min amount b.capacity) ∧
    ((b.consume amount now).1 = false →
      (b.consume amount now).2.tokens =
        min b.capacity (b.tokens + (now - b.lastRefill) * b.refillRate)) ∧
    (b.capacity ≤ amount → min amount b.capacity = b.capacity) ∧
    (0 ≤ (GroqClient.runConsume b ops).1.tokens ∧
      (GroqClient.runConsume b ops).1.tokens ≤ b.capacity) ∧
    (GroqClient.runConsume b ops).2 ≤
      b.capacity +
        ((GroqClient.runConsume b ops).1.lastRefill - b.lastRefill) *
          b.refillRate := by
  obtain ⟨hcap, hrate, hlast, hiff, htok⟩ :=
    GroqClient.consume_spec b amount now
  obtain ⟨i0, i1, _, _, _, i5⟩ :=
    GroqClient.runConsume_invariant ops b h0 h1 hr hops
  refine ⟨hiff, ?_, ?_, fun hge => min_eq_right hge, ⟨i0, i1⟩, by linarith⟩
  · intro hg
    rw [htok, if_pos (hiff.mp hg)]
  · intro hg
    have hnc : ¬ min amount b.capacity ≤
        min b.capacity (b.tokens + (now - b.lastRefill) * b.refillRate) := by
      intro hc
      have := hiff.mpr hc
      rw [this] at hg
      simp at hg
    rw [htok, if_neg hnc]

/-- Claim C4 witness: a bucket of capacity 10 and rate 1 starting full at
time 0, run through a granted call (4 at t=1) and a denied oversized call
(20, capped to 10, at t=2): the level stays in `[0, 10]` and the total
debit respects the budget bound. -/
theorem c4_token_bucket_budget_witness :
    0 ≤ (GroqClient.runConsume ⟨10, 1, 10, 0⟩ [(1, 4), (2, 20)]).1.tokens ∧
    (GroqClient.runConsume ⟨10, 1, 10, 0⟩ [(1, 4), (2, 20)]).1.tokens ≤ 10 ∧
    (GroqClient.runConsume ⟨10, 1, 10, 0⟩ [(1, 4), (2, 20)]).2 ≤
      10 + ((GroqClient.runConsume
        ⟨10, 1, 10, 0⟩ [(1, 4), (2, 20)]).1.lastRefill - 0) * 1 := by
  obtain ⟨_, _, _, _, hb, hc⟩ :=
    c4_token_bucket_budget ⟨10, 1, 10, 0⟩ 3 2 [(1, 4), (2, 20)]
      (by norm_num) (by norm_num) (by norm_num)
      (by refine ⟨by norm_num, by norm_num, by norm_num, by norm_num, trivial⟩)
  exact ⟨hb.1, hb.2, hc⟩

/-- Claim C6: `process_tender_multi_file` estimates the combined input's
token count as character length divided by 4 and takes the single-pass
branch exactly when that estimate is at most the 40000-token ceiling; every
larger estimate takes the hierarchical branch (`process_large_document`) —
a hard cutover with no intermediate behaviour. -/
theorem c6_strategy_hard_cutover (text : String)
    (single hier : String → PyVal) :
    GroqClient.estimate_tokens text = text.length / 4 ∧
    (Summarizer.selectStrategy text = Summarizer.Strategy.singlePass ↔
      text.length / 4 ≤ Summarizer.SINGLE_PASS_TOKEN_LIMIT) ∧
    (Summarizer.selectStrategy text = Summarizer.Strategy.hierarchical ↔
      Summarizer.SINGLE_PASS_TOKEN_LIMIT < text.length / 4) ∧
    (text.length / 4 ≤ Summarizer.SINGLE_PASS_TOKEN_LIMIT →
      Summarizer.processTenderDispatch text single hier = single text) ∧
    (Summarizer.SINGLE_PASS_TOKEN_LIMIT < text.length / 4 →
      Summarizer.processTenderDispatch text single hier = hier text) := by
  unfold Summarizer.selectStrategy Summarizer.processTenderDispatch
    GroqClient.estimate_tokens
  by_cases h : text.length / 4 ≤ Summarizer.SINGLE_PASS_TOKEN_LIMIT <;>
    simp [h] <;> omega

/-- Claim C6 witness: a 3-character input estimates to 0 tokens and runs
the single-pass pipeline. -/
theorem c6_strategy_hard_cutover_witness :
    Summarizer.processTenderDispatch "abc" (fun _ => PyVal.null)
      (fun _ => PyVal.bool true) = PyVal.null :=
  (c6_strategy_hard_cutover "abc" (fun _ => PyVal.null)
    (fun _ => PyVal.bool true)).2.2.2.1 (by decide)

/-- Claim C8: `detect_portal` is a pure function of its input computing one
weighted score per label by summing fixed per-indicator weights over
case-insensitive substring hits; it returns a label iff its score is
strictly higher than the other's and at least 2; ties or two sub-threshold
scores yield `"Generic"` — in particular a text whose scores are both
below 2 (e.g. containing only one label's indicators with total weight
below 2) yields `"Generic"`, and identical input yields identical output. -/
theorem c8_detect_portal_threshold (text : String) :
    (RuleParser.detect_portal text = "GeM" ↔
      RuleParser.portalScore RuleParser.cppp_indicators (pyLower text).data <
        RuleParser.portalScore RuleParser.gem_indicators (pyLower text).data ∧
      2 ≤ RuleParser.portalScore RuleParser.gem_indicators
        (pyLower text).data) ∧
    (RuleParser.detect_portal text = "CPPP" ↔
      RuleParser.portalScore RuleParser.gem_indicators (pyLower text).data <
        RuleParser.portalScore RuleParser.cppp_indicators (pyLower text).data ∧
      2 ≤ RuleParser.portalScore RuleParser.cppp_indicators
        (pyLower text).data) ∧
    (RuleParser.portalScore RuleParser.gem_indicators (pyLower text).data =
      RuleParser.portalScore RuleParser.cppp_indicators (pyLower text).data →
      RuleParser.detect_portal text = "Generic") ∧
    (RuleParser.portalScore RuleParser.gem_indicators (pyLower text).data < 2 →
      RuleParser.portalScore RuleParser.cppp_indicators (pyLower text).data < 2 →
      RuleParser.detect_portal text = "Generic") ∧
    (∀ t : String, t = text →
      RuleParser.detect_portal t = RuleParser.detect_portal text) := by
  unfold RuleParser.detect_portal
  dsimp only
  set g := RuleParser.portalScore RuleParser.gem_indicators (pyLower text).data
  set c := RuleParser.portalScore RuleParser.cppp_indicators (pyLower text).data
  refine ⟨?_, ?_, ?_, ?_, fun t ht => ht ▸ rfl⟩
  · constructor
    · intro h
      by_cases h1 : g > c ∧ g ≥ 2
      · exact ⟨h1.1, h1.2⟩
      · rw [if_neg h1] at h
        by_cases h2 : c > g ∧ c ≥ 2
        · rw [if_pos h2] at h
          exact absurd h (by decide)
        · rw [if_neg h2] at h
          exact absurd h (by decide)
    · intro h
      rw [if_pos (⟨h.1, h.2⟩ : g > c ∧ g ≥ 2)]
  · constructor
    · intro h
      by_cases h1 : g > c ∧ g ≥ 2
      · rw [if_pos h1] at h
        exact absurd h (by decide)
      · rw [if_neg h1] at h
        by_cases h2 : c > g ∧ c ≥ 2
        · exact ⟨h2.1, h2.2⟩
        · rw [if_neg h2] at h
          exact absurd h (by decide)
    · intro h
      rw [if_neg (fun h1 : g > c ∧ g ≥ 2 => absurd h1.1 (by omega)),
        if_pos (⟨h.1, h.2⟩ : c > g ∧ c ≥ 2)]
  · intro h1
    rw [if_neg (fun hh : g > c ∧ g ≥ 2 => absurd hh.1 (by omega)),
      if_neg (fun hh : c > g ∧ c ≥ 2 => absurd hh.1 (by omega))]
  · intro h1 h2
    rw [if_neg (fun hh : g > c ∧ g ≥ 2 => absurd hh.2 (by omega)),
      if_neg (fun hh : c > g ∧ c ≥ 2 => absurd hh.2 (by omega))]

/-- Claim C8 witness: a text containing only the GeM indicator
`"Item Category"` (weight 1, below the threshold 2) classifies as
`"Generic"`. -/
theorem c8_detect_portal_threshold_witness :
    RuleParser.detect_portal "item category" = "Generic" :=
  (c8_detect_portal_threshold "item category").2.2.2.1 (by decide) (by decide)

namespace Summarizer

theorem clean_null : clean_empty_fields PyVal.null = PyVal.null := by
  rw [clean_empty_fields] <;> exact fun _ h => PyVal.noConfusion h

theorem clean_bool (b : Bool) :
    clean_empty_fields (PyVal.bool b) = PyVal.bool b := by
  rw [clean_empty_fields] <;> exact fun _ h => PyVal.noConfusion h

theorem clean_int (n : Int) :
    clean_empty_fields (PyVal.int n) = PyVal.int n := by
  rw [clean_empty_fields] <;> exact fun _ h => PyVal.noConfusion h

theorem clean_str (s : String) :
    clean_empty_fields (PyVal.str s) = PyVal.str s := by
  rw [clean_empty_fields] <;> exact fun _ h => PyVal.noConfusion h

theorem cleanResultOK_scalar (v : PyVal)
    (h : (∀ e, v ≠ PyVal.dict e) ∧ (∀ l, v ≠ PyVal.list l)) :
    cleanResultOK v = true := by
  cases v with
  | dict e => exact absurd rfl (h.1 e)
  | list l => exact absurd rfl (h.2 l)
  | null => rw [cleanResultOK] <;> exact fun _ h => PyVal.noConfusion h
  | bool b => rw [cleanResultOK] <;> exact fun _ h => PyVal.noConfusion h
  | int n => rw [cleanResultOK] <;> exact fun _ h => PyVal.noConfusion h
  | str s => rw [cleanResultOK] <;> exact fun _ h => PyVal.noConfusion h

/-- Joint strong-induction engine: cleaning always produces a value whose
dict entries (outside `_metadata`) are never drop-condition values and
whose list items are never `None`/`""`/`[]`/empty dict, recursively. -/
theorem clean_ok_aux (n : Nat) :
    (∀ v : PyVal, sizeOf v ≤ n →
      cleanResultOK (clean_empty_fields v) = true) ∧
    (∀ d : List (String × PyVal), sizeOf d ≤ n →
      cleanEntriesOK (cleanDictEntries d) = true) ∧
    (∀ items : List PyVal, sizeOf items ≤ n →
      cleanItemsOK (cleanListItems items) = true) := by
  induction n using Nat.strong_induction_on with
  | _ n ih =>
    refine ⟨?_, ?_, ?_⟩
    · intro v hv
      cases v with
      | dict entries =>
        have hsz : sizeOf entries < n := by
          rw [PyVal.dict.sizeOf_spec] at hv; omega
        rw [clean_empty_fields, cleanResultOK]
        exact (ih (sizeOf entries) hsz).2.1 entries le_rfl
      | list items =>
        have hsz : sizeOf items < n := by
          rw [PyVal.list.sizeOf_spec] at hv; omega
        rw [clean_empty_fields, cleanResultOK]
        exact (ih (sizeOf items) hsz).2.2 items le_rfl
      | null =>
        rw [clean_null]
        exact cleanResultOK_scalar _
          ⟨fun _ h => PyVal.noConfusion h, fun _ h => PyVal.noConfusion h⟩
      | bool b =>
        rw [clean_bool]
        exact cleanResultOK_scalar _
          ⟨fun _ h => PyVal.noConfusion h, fun _ h => PyVal.noConfusion h⟩
      | int m =>
        rw [clean_int]
        exact cleanResultOK_scalar _
          ⟨fun _ h => PyVal.noConfusion h, fun _ h => PyVal.noConfusion h⟩
      | str s =>
        rw [clean_str]
        exact cleanResultOK_scalar _
          ⟨fun _ h => PyVal.noConfusion h, fun _ h => PyVal.noConfusion h⟩
    · intro d hd
      cases d with
      | nil => rw [cleanDictEntries]; rfl
      | cons hd' rest =>
        obtain ⟨k, v⟩ := hd'
        have hszrest : sizeOf rest < n := by
          rw [List.cons.sizeOf_spec] at hd; omega
        have hszv : sizeOf v < n := by
          rw [List.cons.sizeOf_spec, Prod.mk.sizeOf_spec] at hd; omega
        rw [cleanDictEntries]
        by_cases hk : k = "_metadata"
        · rw [if_pos hk, cleanEntriesOK, if_pos hk, Bool.true_and]
          exact (ih (sizeOf rest) hszrest).2.1 rest le_rfl
        · rw [if_neg hk]
          by_cases hdrop : isDroppedValue (clean_empty_fields v) = true
          · rw [if_pos hdrop, List.nil_append]
            exact (ih (sizeOf rest) hszrest).2.1 rest le_rfl
          · rw [if_neg hdrop, List.singleton_append, cleanEntriesOK,
              if_neg hk]
            have h1 : (!isDroppedValue (clean_empty_fields v)) = true := by
              simp [hdrop]
            have h2 : cleanResultOK (clean_empty_fields v) = true :=
              (ih (sizeOf v) hszv).1 v le_rfl
            have h3 : cleanEntriesOK (cleanDictEntries rest) = true :=
              (ih (sizeOf rest) hszrest).2.1 rest le_rfl
            rw [h1, h2, h3]
            rfl
    · intro items hitems
      cases items with
      | nil => rw [cleanListItems]; rfl
      | cons i rest =>
        have hszrest : sizeOf rest < n := by
          rw [List.cons.sizeOf_spec] at hitems; omega
        have hszi : sizeOf i < n := by
          rw [List.cons.sizeOf_spec] at hitems; omega
        rw [cleanListItems]
        by_cases hdrop : inDropTuple (clean_empty_fields i) = true
        · rw [if_pos hdrop, List.nil_append]
          exact (ih (sizeOf rest) hszrest).2.2 rest le_rfl
        · rw [if_neg hdrop, List.singleton_append, cleanItemsOK]
          have h1 : (!inDropTuple (clean_empty_fields i)) = true := by
            simp [hdrop]
          have h2 : cleanResultOK (clean_empty_fields i) = true :=
            (ih (sizeOf i) hszi).1 i le_rfl
          have h3 : cleanItemsOK (cleanListItems rest) = true :=
            (ih (sizeOf rest) hszrest).2.2 rest le_rfl
          rw [h1, h2, h3]
          rfl

end Summarizer

/-- Claim C5 (amended): `clean_empty_fields` recursively removes every dict
entry outside `_metadata` whose value is empty under the CODE's definition
— `None`, an empty collection, or a string equal case-insensitively after
trimming to one of `stop_words = {"not found", "not mentioned",
"not specified", "n/a", "", "null", "none"}` — so no such value remains in
the result; list items are removed exactly when they equal `None`, `""`,
`[]` or the empty dict; `_metadata` entries pass through unchanged.  The
spec's placeholder tokens `"not available"` and `"tbd"` are NOT in the
code's stop-word set and such leaves remain (see the counterexample). -/
theorem c5_clean_empty_fields_strips_stop_words (v : PyVal)
    (d : List (String × PyVal)) (w : PyVal)
    (hmeta : ("_metadata", w) ∈ d) :
    Summarizer.cleanResultOK (Summarizer.clean_empty_fields v) = true ∧
    ("_metadata", w) ∈ Summarizer.cleanDictEntries d := by
  refine ⟨(Summarizer.clean_ok_aux (sizeOf v)).1 v le_rfl, ?_⟩
  induction d with
  | nil => simp at hmeta
  | cons hd rest ih =>
    obtain ⟨k, x⟩ := hd
    rw [Summarizer.cleanDictEntries]
    rcases List.mem_cons.mp hmeta with heq | hmem
    · have hk : k = "_metadata" := (Prod.mk.injEq _ _ _ _ ▸ heq).1.symm
      rw [if_pos hk]
      exact heq ▸ List.mem_cons_self _ _
    · by_cases hk : k = "_metadata"
      · rw [if_pos hk]
        exact List.mem_cons_of_mem _ (ih hmem)
      · rw [if_neg hk]
        exact List.mem_append_right _ (ih hmem)

/-- Claim C5 witness: cleaning keeps the non-placeholder leaf and the
`_metadata` entry survives untouched. -/
theorem c5_clean_empty_fields_strips_stop_words_witness :
    Summarizer.cleanResultOK (Summarizer.clean_empty_fields
      (PyVal.dict [("a", PyVal.str "x"), ("b", PyVal.null)])) = true ∧
    ("_metadata", PyVal.str "m") ∈ Summarizer.cleanDictEntries
      [("a", PyVal.str "x"), ("_metadata", PyVal.str "m")] :=
  ⟨(c5_clean_empty_fields_strips_stop_words
      (PyVal.dict [("a", PyVal.str "x"), ("b", PyVal.null)])
      [("_metadata", PyVal.str "m")] (PyVal.str "m")
      (List.mem_cons_self _ _)).1,
   (c5_clean_empty_fields_strips_stop_words PyVal.null
      [("a", PyVal.str "x"), ("_metadata", PyVal.str "m")] (PyVal.str "m")
      (by simp)).2⟩

/-- Claim C5 counterexample: the leaf `"tbd"` is a placeholder under the
spec's definition but is not in the code's `stop_words`, so
`clean_empty_fields` leaves it in the externally visible result. -/
theorem c5_counterexample :
    Summarizer.clean_empty_fields (PyVal.dict [("a", PyVal.str "tbd")]) =
      PyVal.dict [("a", PyVal.str "tbd")] ∧
    GapFiller.specEmptyLeaf (PyVal.str "tbd") = true := by
  refine ⟨?_, rfl⟩
  rw [Summarizer.clean_empty_fields, Summarizer.cleanDictEntries,
    Summarizer.cleanDictEntries, Summarizer.clean_str]
  norm_num [Summarizer.isDroppedValue, Summarizer.stop_words, pyStrip,
    pyLower]
  decide

namespace BatchProcessor

/-- Slot contents after any completion schedule: a slot holds its own
chunk's settled result once its index has completed, independent of when
the other tasks completed. -/
theorem gatherScheduled_getElem (chunks : List String)
    (f : String → Except String String) (order : List Nat) :
    ∀ (acc : List (Option String)), acc.length = chunks.length →
      ∀ (j : Nat) (c : String), chunks[j]? = some c →
        (order.foldl
          (fun acc i =>
            match chunks[i]? with
            | some c' => acc.set i (some (settleChunk f c'))
            | none => acc) acc)[j]? =
          if j ∈ order then some (some (settleChunk f c)) else acc[j]? := by
  induction order with
  | nil => intro acc _ j c _; simp
  | cons i rest ih =>
    intro acc hlen j c hc
    rw [List.foldl_cons]
    have hlen' : (match chunks[i]? with
        | some c' => acc.set i (some (settleChunk f c'))
        | none => acc).length = chunks.length := by
      cases chunks[i]? <;> simp [hlen]
    rw [ih _ hlen' j c hc]
    by_cases hj : j ∈ rest
    · simp [hj]
    · simp only [hj, if_false]
      by_cases hij : i = j
      · subst hij
        rw [hc]
        have hlt : i < acc.length := by
          rw [hlen]; exact (List.getElem?_eq_some.mp hc).1
        rw [List.getElem?_set_self hlt]
        simp
      · have hji : ¬ j = i := fun h => hij h.symm
        cases hci : chunks[i]? with
        | none => simp [List.mem_cons, hji, hj]
        | some c' =>
          rw [List.getElem?_set_ne hij]
          simp [List.mem_cons, hji, hj]

end BatchProcessor

/-- Claim C7: `process_micro_batches` returns exactly one result per input
chunk, positionally matching the input order; a chunk whose call raises
fills its own slot with the `"[Error: ...]"` marker and does not disturb
the other chunks' results; and for every completion order of the gathered
tasks (any permutation of the indices) the assembled output equals the
positional result list — completion order is irrelevant and the batch
completes once every call has settled. -/
theorem c7_micro_batches_positional (chunks : List String)
    (f : String → Except String String) (order : List Nat) (i : Nat)
    (c e : String)
    (horder : ∀ j, j < chunks.length → j ∈ order)
    (hic : chunks[i]? = some c) :
    (BatchProcessor.process_micro_batches chunks f).length =
      chunks.length ∧
    (BatchProcessor.process_micro_batches chunks f)[i]? =
      some (BatchProcessor.settleChunk f c) ∧
    (f (BatchProcessor.microPrompt c) = Except.error e →
      (BatchProcessor.process_micro_batches chunks f)[i]? =
        some ("[Error: " ++ e ++ "]")) ∧
    BatchProcessor.gatherScheduled chunks f order =
      (BatchProcessor.process_micro_batches chunks f).map some := by
  have hpos : ∀ (j : Nat) (c' : String), chunks[j]? = some c' →
      (BatchProcessor.process_micro_batches chunks f)[j]? =
        some (BatchProcessor.settleChunk f c') := by
    intro j c' hc'
    rw [BatchProcessor.process_micro_batches, List.getElem?_map, hc']
    rfl
  refine ⟨by simp [BatchProcessor.process_micro_batches], hpos i c hic,
    ?_, ?_⟩
  · intro herr
    rw [hpos i c hic, BatchProcessor.settleChunk, herr]
  · refine List.ext_getElem? ?_
    intro j
    by_cases hj : j < chunks.length
    · obtain ⟨c', hc'⟩ : ∃ c', chunks[j]? = some c' :=
        ⟨chunks[j], List.getElem?_eq_getElem hj⟩
      rw [BatchProcessor.gatherScheduled,
        BatchProcessor.gatherScheduled_getElem chunks f order
          (List.replicate chunks.length none) (by simp) j c' hc',
        if_pos (horder j hj), List.getElem?_map, hpos j c' hc']
      rfl
    · have h1 : (BatchProcessor.gatherScheduled chunks f order)[j]? =
          none := by
        refine List.getElem?_eq_none ?_
        rw [BatchProcessor.gatherScheduled]
        have : ∀ (ord : List Nat) (acc : List (Option String)),
            acc.length = chunks.length →
            (ord.foldl
              (fun acc i =>
                match chunks[i]? with
                | some c' => acc.set i (some (BatchProcessor.settleChunk f c'))
                | none => acc) acc).length = chunks.length := by
          intro ord
          induction ord with
          | nil => intro acc h; simpa using h
          | cons x rest ihr =>
            intro acc h
            rw [List.foldl_cons]
            refine ihr _ ?_
            cases chunks[x]? <;> simp [h]
        rw [this order (List.replicate chunks.length none) (by simp)]
        omega
      rw [h1]
      symm
      refine List.getElem?_eq_none ?_
      simp [BatchProcessor.process_micro_batches]
      omega

/-- Claim C7 witness: two chunks where the first call raises `"boom"` and
the second succeeds; the first slot holds the error marker, the second its
result, and the completion order `[1, 0]` (second finishes first)
assembles the same positional output. -/
theorem c7_micro_batches_positional_witness :
    (BatchProcessor.process_micro_batches ["a", "b"]
        (fun p => if p = BatchProcessor.microPrompt "a" then
          Except.error "boom" else Except.ok "fine"))[0]? =
      some ("[Error: " ++ "boom" ++ "]") ∧
    BatchProcessor.gatherScheduled ["a", "b"]
        (fun p => if p = BatchProcessor.microPrompt "a" then
          Except.error "boom" else Except.ok "fine") [1, 0] =
      (BatchProcessor.process_micro_batches ["a", "b"]
        (fun p => if p = BatchProcessor.microPrompt "a" then
          Except.error "boom" else Except.ok "fine")).map some := by
  have h := c7_micro_batches_positional ["a", "b"]
    (fun p => if p = BatchProcessor.microPrompt "a" then
      Except.error "boom" else Except.ok "fine") [1, 0] 0 "a" "boom"
    (by decide) rfl
  exact ⟨h.2.2.1 (by simp), h.2.2.2⟩

namespace Schema

theorem entriesLeavesOK_of_str :
    ∀ entries : List (String × PyVal),
      (∀ p ∈ entries, ∃ s, p.2 = PyVal.str s) →
      entriesLeavesOK entries = true := by
  intro entries
  induction entries with
  | nil => intro _; rfl
  | cons p rest ih =>
    intro h
    obtain ⟨s, hs⟩ := h p (List.mem_cons_self _ _)
    obtain ⟨k, v⟩ := p
    simp only at hs
    subst hs
    rw [entriesLeavesOK, stringLeavesOnly, Bool.true_and]
    exact ih (fun q hq => h q (List.mem_cons_of_mem _ hq))

theorem validateSection_leaves (fields : List String) (v : Option PyVal)
    (m : List (String × PyVal)) (h : validateSection fields v = some m) :
    stringLeavesOnly (PyVal.dict m) = true := by
  rw [stringLeavesOnly]
  cases v with
  | none =>
    rw [validateSection] at h
    obtain rfl := Option.some.inj h
    refine entriesLeavesOK_of_str _ ?_
    intro p hp
    obtain ⟨f, _, rfl⟩ := List.mem_map.mp hp
    exact ⟨"", rfl⟩
  | some w =>
    cases w with
    | dict mm =>
      rw [validateSection] at h
      obtain rfl := Option.some.inj h
      refine entriesLeavesOK_of_str _ ?_
      intro p hp
      obtain ⟨f, _, rfl⟩ := List.mem_map.mp hp
      exact ⟨_, rfl⟩
    | null =>
      rw [validateSection] at h
      · exact absurd h (by simp)
      · exact fun _ hh => PyVal.noConfusion hh
    | bool b =>
      rw [validateSection] at h
      · exact absurd h (by simp)
      · exact fun _ hh => PyVal.noConfusion hh
    | int n =>
      rw [validateSection] at h
      · exact absurd h (by simp)
      · exact fun _ hh => PyVal.noConfusion hh
    | str s =>
      rw [validateSection] at h
      · exact absurd h (by simp)
      · exact fun _ hh => PyVal.noConfusion hh
    | list l =>
      rw [validateSection] at h
      · exact absurd h (by simp)
      · exact fun _ hh => PyVal.noConfusion hh

theorem stringLeavesOnly_map_str (xs : List String) :
    stringLeavesOnly (PyVal.list (xs.map PyVal.str)) = true := by
  rw [stringLeavesOnly]
  simp [List.all_map]

end Schema

/-- Claim C9: for every input mapping accepted by `TenderSummary`
validation, every leaf of the resulting record is a string or a list of
strings; the `coerce_to_string` boundary canonicalizes a list by joining
its elements with `"; "` through `str`, a dict by JSON-serialization, and
`None` to `""`; and the document-list validator turns a bare string into a
one-element list and maps every list element through `str` — no raw nested
object enters the record. -/
theorem c9_tender_summary_string_leaves (input r : List (String × PyVal))
    (hv : Schema.TenderSummary_validate input = some r) :
    Schema.stringLeavesOnly (PyVal.dict r) = true ∧
    (∀ items, Schema.coerce_to_string (PyVal.list items) =
      String.intercalate "; " (items.map Schema.pyStr)) ∧
    (∀ entries, Schema.coerce_to_string (PyVal.dict entries) =
      Schema.jsonDumps (PyVal.dict entries)) ∧
    Schema.coerce_to_string PyVal.null = "" ∧
    (∀ s, Schema.coerce_documents (some (PyVal.str s)) = [s]) ∧
    (∀ items, Schema.coerce_documents (some (PyVal.list items)) =
      items.map Schema.pyStr) := by
  refine ⟨?_, fun _ => rfl, fun _ => rfl, rfl, fun _ => rfl, fun _ => rfl⟩
  rw [Schema.TenderSummary_validate] at hv
  cases htm : Schema.validateSection Schema.TENDER_META_FIELDS (dictGet input "tender_meta") with
  | none => simp only [htm] at hv; simp at hv
  | some tm =>
    simp only [htm] at hv
    cases hsow : Schema.validateSection Schema.SCOPE_OF_WORK_FIELDS (dictGet input "scope_of_work") with
    | none => simp only [hsow] at hv; simp at hv
    | some sow =>
      simp only [hsow] at hv
      cases hkd : Schema.validateSection Schema.KEY_DATES_FIELDS (dictGet input "key_dates") with
      | none => simp only [hkd] at hv; simp at hv
      | some kd =>
        simp only [hkd] at hv
        cases hes : Schema.validateSection Schema.ELIGIBILITY_FIELDS (dictGet input "eligibility_snapshot") with
        | none => simp only [hes] at hv; simp at hv
        | some es =>
          simp only [hes] at hv
          cases hfr : Schema.validateSection Schema.FINANCIAL_FIELDS (dictGet input "financial_requirements") with
          | none => simp only [hfr] at hv; simp at hv
          | some fr =>
            simp only [hfr] at hv
            cases hlr : Schema.validateSection Schema.LEGAL_FIELDS (dictGet input "legal_and_risk_clauses") with
            | none => simp only [hlr] at hv; simp at hv
            | some lr =>
              simp only [hlr] at hv
              cases hvh : Schema.validateSection Schema.VENDOR_HINT_FIELDS (dictGet input "vendor_decision_hint") with
              | none => simp only [hvh] at hv; simp at hv
              | some vh =>
                simp only [hvh] at hv
                cases hai : Schema.validateSection Schema.ADDITIONAL_FIELDS (dictGet input "additional_important_information") with
                | none => simp only [hai] at hv; simp at hv
                | some ai =>
                  simp only [hai] at hv
                  cases hex : Schema.validateStrStrict (dictGet input "executive_summary") with
                  | none => simp only [hex] at hv; simp at hv
                  | some ex =>
                    simp only [hex] at hv
                    cases hlk : Schema.validateStrListStrict (dictGet input "external_links") with
                    | none => simp only [hlk] at hv; simp at hv
                    | some lk =>
                      simp only [hlk] at hv
                      simp only [Option.bind_eq_bind, Option.some_bind] at hv
                      obtain rfl := Option.some.inj hv
                      rw [Schema.stringLeavesOnly]
                      simp only [Schema.entriesLeavesOK, Bool.and_eq_true]
                      refine ⟨?_, ?_, ?_, ?_, ?_, ?_, ?_, ?_, ?_, ?_, ?_, ?_, ?_, ?_⟩
                      · exact Schema.validateSection_leaves _ _ _ htm
                      · exact Schema.validateSection_leaves _ _ _ hsow
                      · exact Schema.validateSection_leaves _ _ _ hkd
                      · exact Schema.validateSection_leaves _ _ _ hes
                      · exact Schema.validateSection_leaves _ _ _ hfr
                      · exact Schema.stringLeavesOnly_map_str _
                      · exact Schema.stringLeavesOnly_map_str _
                      · exact Schema.stringLeavesOnly_map_str _
                      · exact Schema.validateSection_leaves _ _ _ hlr
                      · exact Schema.validateSection_leaves _ _ _ hvh
                      · exact Schema.validateSection_leaves _ _ _ hai
                      · rfl
                      · rfl
                      · exact ⟨Schema.stringLeavesOnly_map_str _, trivial⟩

/-- Claim C9 witness: a concrete accepted input (only an executive summary
provided) whose validated dump has only string / string-list leaves. -/
theorem c9_tender_summary_string_leaves_witness :
    Schema.stringLeavesOnly (PyVal.dict
      ((Schema.TenderSummary_validate
        [("executive_summary", PyVal.str "hi")]).getD [])) = true :=
  (c9_tender_summary_string_leaves
    [("executive_summary", PyVal.str "hi")]
    ((Schema.TenderSummary_validate
      [("executive_summary", PyVal.str "hi")]).getD [])
    (by rfl)).1
